import Mathlib

set_option maxRecDepth 8000

/-!
# Verification of the collaborative-spreadsheet frontend

Shallow embedding of the pure logic of the repository:

* `DataValidation` — `src/frontend/src/utils/dataValidation.js`
  (type detection and value validation/formatting);
* `Formulas` — the formula utilities module (`parseCellRef`, `parseCellRange`,
  `getCellId`, `getRangeValues`, `parseFormula`, `evaluateFormula`,
  `isFormula`, `getFormulaDisplayValue`, `getFormulaError`);
* `Sheet` — the client-side handlers of `src/frontend/src/components/Spreadsheet.js`
  (`cell_updated`, `cell_selected`, `insertRowAt`, `deleteRowAt`).

Modelling conventions, stated once:

* JavaScript strings are Lean `String`s manipulated through their
  `List Char` data; `.length` counts characters rather than UTF-16 units
  (the difference is irrelevant to the properties proved here).
* JavaScript numbers are modelled by `JsNum`: `NaN`, `±Infinity`, or an exact
  rational.  Finite values are kept exact instead of being rounded to 53-bit
  doubles; overflow of `parseFloat` to `±Infinity` *is* modelled, at the exact
  round-to-nearest-even boundary `2^1024 - 2^970`, because observable behaviour
  depends on it.  Finite formatting (`Number.prototype.toString`) is modelled
  by exact decimal rendering; it can differ from JS shortest-round-trip
  formatting in digit count and in the choice of exponent form, but both
  always match the numeric grammar tested by `isValidNumber`, which is all the
  theorems below depend on.
* `new Date(s)` validity and `Date.prototype.toLocaleDateString` are
  engine/locale dependent; they are passed as explicit function parameters
  (`dv`, `df`, `dateParse`) and the theorems quantify over them or record
  assumptions about them.
-/

/-- The ECMAScript whitespace characters recognised by `String.prototype.trim`
(space, tab, LF, CR, VT, FF, NBSP, Ogham space, U+2000..U+200A, LS, PS, NNBSP,
MMSP, ideographic space, BOM), by code point. -/
def jsWhitespace (c : Char) : Bool :=
  c.toNat = 32 || c.toNat = 9 || c.toNat = 10 || c.toNat = 13 ||
  c.toNat = 11 || c.toNat = 12 || c.toNat = 160 || c.toNat = 5760 ||
  (8192 ≤ c.toNat && c.toNat ≤ 8202) || c.toNat = 8232 || c.toNat = 8233 ||
  c.toNat = 8239 || c.toNat = 8287 || c.toNat = 12288 || c.toNat = 65279

/-- Leading-whitespace removal on character lists. -/
def jsTrimL (l : List Char) : List Char := l.dropWhile jsWhitespace

/-- Trailing-whitespace removal on character lists. -/
def jsTrimR (l : List Char) : List Char := (l.reverse.dropWhile jsWhitespace).reverse

/-- `String.prototype.trim` on character lists. -/
def jsTrimList (l : List Char) : List Char := jsTrimR (jsTrimL l)

/-- `String.prototype.trim`. -/
def jsTrim (s : String) : String := ⟨jsTrimList s.data⟩

/-- Character class `[A-Z]`. -/
def isUpperAZ (c : Char) : Bool := 'A' ≤ c && c ≤ 'Z'

/-- Character class `[0-9]` (`\d`). -/
def isDigit09 (c : Char) : Bool := '0' ≤ c && c ≤ '9'

/-- Character class `\w` = `[A-Za-z0-9_]`. -/
def isWordChar (c : Char) : Bool :=
  isUpperAZ c || ('a' ≤ c && c ≤ 'z') || isDigit09 c || c = '_'

/-- Numeric value of a decimal digit character. -/
def digitVal (c : Char) : Nat := c.toNat - 48

/-- Value of a string of decimal digits (the behaviour of `parseInt` on an
all-digit string, and of the digit parts of `parseFloat`). -/
def digitsToNat (l : List Char) : Nat := l.foldl (fun a c => a * 10 + digitVal c) 0

/-- Fuel-driven digit rendering; structural recursion so the kernel can
evaluate it. -/
def natDigitsGo : Nat → Nat → List Char
  | 0, _ => []
  | fuel + 1, n =>
    if n < 10 then [Char.ofNat (48 + n)]
    else natDigitsGo fuel (n / 10) ++ [Char.ofNat (48 + n % 10)]

/-- Decimal digit characters of `n`, most significant first (the rendering of a
non-negative integer by JS number-to-string conversion). -/
def natDigits (n : Nat) : List Char := natDigitsGo (n + 1) n

theorem natDigitsGo_congr :
    ∀ fuel1 fuel2 n, n < fuel1 → n < fuel2 → natDigitsGo fuel1 n = natDigitsGo fuel2 n := by
  intro fuel1
  induction fuel1 with
  | zero => intro fuel2 n h1; omega
  | succ f1 ih =>
    intro fuel2 n h1 h2
    cases fuel2 with
    | zero => omega
    | succ f2 =>
      simp only [natDigitsGo]
      split
      · rfl
      · rename_i hn
        have hlt : n / 10 < n := Nat.div_lt_self (by omega) (by omega)
        rw [ih f2 (n / 10) (by omega) (by omega)]

/-- The recursion equation of `natDigits`. -/
theorem natDigits_eq (n : Nat) :
    natDigits n =
      if n < 10 then [Char.ofNat (48 + n)]
      else natDigits (n / 10) ++ [Char.ofNat (48 + n % 10)] := by
  have unfold1 : ∀ f m, natDigitsGo (f + 1) m =
      if m < 10 then [Char.ofNat (48 + m)]
      else natDigitsGo f (m / 10) ++ [Char.ofNat (48 + m % 10)] := fun f m => rfl
  unfold natDigits
  rw [unfold1]
  by_cases h : n < 10
  · simp [h]
  · have hlt : n / 10 < n := Nat.div_lt_self (by omega) (by omega)
    rw [if_neg h, if_neg h, natDigitsGo_congr n (n / 10 + 1) (n / 10) (by omega) (by omega)]

/-- Decimal rendering of a non-negative integer. -/
def natStr (n : Nat) : String := ⟨natDigits n⟩

/-- Decimal rendering of an integer (JS rendering of integral numbers). -/
def intStr (i : Int) : String := if i < 0 then "-" ++ natStr i.natAbs else natStr i.toNat

/-! Rational arithmetic, written through `Rat.divInt` so that the kernel can
evaluate it on concrete inputs (the `Rat.add`/`Rat.mul` of the library are
irreducible); each operation is proved equal to the standard one. -/

/-- Rational addition, computably. -/
def qAdd (a b : ℚ) : ℚ := Rat.divInt (a.num * b.den + b.num * a.den) ((a.den : Int) * b.den)

/-- Rational division, computably. -/
def qDiv (a b : ℚ) : ℚ := Rat.divInt (a.num * b.den) ((a.den : Int) * b.num)

/-- Rational negation, computably. -/
def qNeg (a : ℚ) : ℚ := Rat.divInt (-a.num) (a.den : Int)

/-- Rational `≤` as a computable Boolean. -/
def qLe (a b : ℚ) : Bool := decide (a.num * (b.den : Int) ≤ b.num * (a.den : Int))

/-- Rational `<` as a computable Boolean. -/
def qLt (a b : ℚ) : Bool := decide (a.num * (b.den : Int) < b.num * (a.den : Int))

theorem qAdd_eq (a b : ℚ) : qAdd a b = a + b := by
  unfold qAdd
  rw [Rat.add_def]
  simp [Rat.normalize_eq_mkRat, Rat.mkRat_eq_divInt, mul_comm]

theorem qNeg_eq (a : ℚ) : qNeg a = -a := by
  unfold qNeg
  rw [← Rat.neg_divInt, Rat.num_divInt_den]

theorem qDiv_eq (a b : ℚ) : qDiv a b = a / b := by
  unfold qDiv
  rcases eq_or_ne b 0 with rfl | hb
  · simp
  · have hbn : b.num ≠ 0 := Rat.num_ne_zero.mpr hb
    have had : ((a.den : ℚ)) ≠ 0 := by exact_mod_cast a.den_nz
    have hbd : ((b.den : ℚ)) ≠ 0 := by exact_mod_cast b.den_nz
    have hbnq : ((b.num : ℚ)) ≠ 0 := by exact_mod_cast hbn
    rw [Rat.divInt_eq_div]
    push_cast
    conv_rhs => rw [← Rat.num_div_den a, ← Rat.num_div_den b]
    field_simp

theorem qLe_iff (a b : ℚ) : qLe a b = true ↔ a ≤ b := by
  unfold qLe
  rw [decide_eq_true_iff]
  constructor
  · intro h
    calc a = Rat.divInt a.num a.den := (Rat.num_divInt_den a).symm
    _ ≤ Rat.divInt b.num b.den := by
        rw [Rat.divInt_le_divInt (by exact_mod_cast a.pos) (by exact_mod_cast b.pos)]
        exact h
    _ = b := Rat.num_divInt_den b
  · intro h
    have hmono := (Rat.divInt_le_divInt (a := a.num) (b := (a.den : Int)) (c := b.num)
      (d := (b.den : Int)) (by exact_mod_cast a.pos) (by exact_mod_cast b.pos)).mp
    rw [Rat.num_divInt_den, Rat.num_divInt_den] at hmono
    exact hmono h

theorem qLt_iff (a b : ℚ) : qLt a b = true ↔ a < b := by
  have hq := qLe_iff b a
  unfold qLe at hq
  rw [decide_eq_true_iff] at hq
  unfold qLt
  rw [decide_eq_true_iff, ← Int.not_le, hq, not_le]

/-- JavaScript number: `NaN`, `±Infinity`, or a finite value kept as an exact
rational (see the module docstring for the rounding caveat). -/
inductive JsNum where
  | nan
  | inf
  | negInf
  | num (q : ℚ)
deriving DecidableEq, BEq, Repr

/-- JS `+` on numbers (without finite-value rounding/overflow, which the claims
never exercise on sums of in-range values). -/
def JsNum.add : JsNum → JsNum → JsNum
  | nan, _ => nan
  | _, nan => nan
  | inf, negInf => nan
  | negInf, inf => nan
  | inf, _ => inf
  | _, inf => inf
  | negInf, _ => negInf
  | _, negInf => negInf
  | num a, num b => num (qAdd a b)

/-- JS `/` on numbers (signed zero is not modelled; the evaluator only divides
by a positive integer list length). -/
def JsNum.div : JsNum → JsNum → JsNum
  | nan, _ => nan
  | _, nan => nan
  | inf, inf => nan
  | inf, negInf => nan
  | negInf, inf => nan
  | negInf, negInf => nan
  | inf, num b => if qLt b 0 then negInf else inf
  | negInf, num b => if qLt b 0 then inf else negInf
  | num _, inf => num 0
  | num _, negInf => num 0
  | num a, num b =>
    if b = 0 then (if a = 0 then nan else if qLt a 0 then negInf else inf)
    else num (qDiv a b)

/-- `Number.isInteger`. -/
def JsNum.isInt : JsNum → Bool
  | num q => q.den = 1
  | _ => false

/-- Optional sign: consumes a leading `+` or `-`, reporting whether it was `-`. -/
def parseSign : List Char → (Bool × List Char)
  | '-' :: rest => (true, rest)
  | '+' :: rest => (false, rest)
  | l => (false, l)

/-- `litStarts pat l` is true when `pat` is an initial segment of `l`. -/
def litStarts : List Char → List Char → Bool
  | [], _ => true
  | _ :: _, [] => false
  | p :: ps, c :: cs => p = c && litStarts ps cs

/-- Mantissa of a `parseFloat` literal: integer digits, optional `.`, fraction
digits; at least one digit overall.  Returns the integer-part value, the
fraction-part value, the fraction length and the unconsumed remainder. -/
def parseMantissa (l : List Char) : Option (Nat × Nat × Nat × List Char) :=
  let I := l.takeWhile isDigit09
  let l1 := l.drop I.length
  match l1 with
  | '.' :: l2 =>
    let F := l2.takeWhile isDigit09
    let l3 := l2.drop F.length
    if I.isEmpty && F.isEmpty then none
    else some (digitsToNat I, digitsToNat F, F.length, l3)
  | _ => if I.isEmpty then none else some (digitsToNat I, 0, 0, l1)

/-- Exponent suffix of a `parseFloat` literal: `[eE][+-]?\d+` if present and
well formed, otherwise contributes exponent `0` (JS backtracks and ignores an
incomplete exponent). -/
def parseExpPart (l : List Char) : Int :=
  match l with
  | c :: rest =>
    if c = 'e' || c = 'E' then
      let (eneg, r2) := parseSign rest
      let D := r2.takeWhile isDigit09
      if D.isEmpty then 0
      else if eneg then -(digitsToNat D : Int) else (digitsToNat D : Int)
    else 0
  | [] => 0

/-- Smallest magnitude at which `parseFloat` overflows to `Infinity`
(the round-to-nearest-even boundary of the IEEE-754 binary64 range). -/
def jsOverflowBound : ℚ := Rat.divInt ((2 ^ 1024 - 2 ^ 970 : ℕ) : Int) 1

/-- The exact rational `m * 10 ^ e`. -/
def decValue (m : Nat) (e : Int) : ℚ :=
  if 0 ≤ e then Rat.divInt ((m * 10 ^ e.toNat : ℕ) : Int) 1
  else Rat.divInt (m : Int) ((10 ^ (-e).toNat : ℕ) : Int)

/-- Package a parsed magnitude with its sign, overflowing to `±Infinity` as a
double would. -/
def mkJsNum (neg : Bool) (mag : ℚ) : JsNum :=
  if qLe jsOverflowBound mag then (if neg then .negInf else .inf)
  else .num (if neg then qNeg mag else mag)

/-- `parseFloat`: skip leading whitespace, optional sign, the `Infinity`
literal or a decimal mantissa with optional exponent; `NaN` when no numeric
prefix exists.  Finite values are exact (module docstring). -/
def parseFloatJs (s : String) : JsNum :=
  let l := s.data.dropWhile jsWhitespace
  let (neg, l1) := parseSign l
  if litStarts "Infinity".data l1 then (if neg then .negInf else .inf)
  else
    match parseMantissa l1 with
    | none => .nan
    | some (i, f, flen, rest) =>
      mkJsNum neg (decValue (i * 10 ^ flen + f) (parseExpPart rest - flen))

/-- Tail test for the number grammar: end of input, or `[eE][+-]?\d+` to the
end (the suffix of the regex `^-?(?:\d+\.?\d*|\.\d+)(?:[eE][+-]?\d+)?$`). -/
def expTailOk (l : List Char) : Bool :=
  match l with
  | [] => true
  | c :: rest =>
    if c = 'e' || c = 'E' then
      let (_, r2) := parseSign rest
      let D := r2.takeWhile isDigit09
      !D.isEmpty && (r2.drop D.length).isEmpty
    else false

/-- The regex `^-?(?:\d+\.?\d*|\.\d+)(?:[eE][+-]?\d+)?$` of `isValidNumber`. -/
def numberShape (l : List Char) : Bool :=
  let l1 := match l with | '-' :: r => r | _ => l
  let I := l1.takeWhile isDigit09
  let l2 := l1.drop I.length
  if I.isEmpty then
    match l2 with
    | '.' :: l3 =>
      let F := l3.takeWhile isDigit09
      !F.isEmpty && expTailOk (l3.drop F.length)
    | _ => false
  else
    match l2 with
    | '.' :: l3 =>
      let F := l3.takeWhile isDigit09
      expTailOk (l3.drop F.length)
    | _ => expTailOk l2

namespace DataValidation

/-- `isValidNumber` of `dataValidation.js`: non-blank, matches the numeric
grammar, and `parseFloat` of the trimmed string is not `NaN`. -/
def isValidNumber (s : String) : Bool :=
  let t := jsTrimList s.data
  !t.isEmpty && numberShape t && !(decide (parseFloatJs ⟨t⟩ = JsNum.nan))

/-- One date layout `^\d{a}sep\d{b}sep\d{c}$` with run-length bounds; because
the separators are not digits, bounded-greedy regex matching coincides with
checking the maximal digit runs. -/
def dateShape (l : List Char) (sep : Char) (lo1 hi1 lo2 hi2 lo3 hi3 : Nat) : Bool :=
  let r1 := l.takeWhile isDigit09
  match l.drop r1.length with
  | c1 :: l2 =>
    if c1 = sep then
      let r2 := l2.takeWhile isDigit09
      match l2.drop r2.length with
      | c2 :: l4 =>
        if c2 = sep then
          let r3 := l4.takeWhile isDigit09
          decide (lo1 ≤ r1.length) && decide (r1.length ≤ hi1) &&
          decide (lo2 ≤ r2.length) && decide (r2.length ≤ hi2) &&
          decide (lo3 ≤ r3.length) && decide (r3.length ≤ hi3) &&
          (l4.drop r3.length).isEmpty
        else false
      | [] => false
    else false
  | [] => false

/-- `looksLikeDate`: the four fixed numeric date layouts, tested on the trimmed
string. -/
def looksLikeDate (s : String) : Bool :=
  let t := jsTrimList s.data
  !s.data.isEmpty &&
  (dateShape t '/' 1 2 1 2 4 4 || dateShape t '-' 1 2 1 2 4 4 ||
   dateShape t '-' 4 4 1 2 1 2 || dateShape t '/' 1 2 1 2 2 2)

/-- `isValidDate`: the format check plus engine-dependent `new Date` validity,
the latter supplied as the parameter `dv`. -/
def isValidDate (dv : String → Bool) (s : String) : Bool :=
  looksLikeDate s && dv s

/-- Trailing-zero removal for fraction rendering. -/
def stripZeros (l : List Char) : List Char := (l.reverse.dropWhile (fun c => c = '0')).reverse

/-- Zero-pad a digit list on the left to length `k`. -/
def padDigits (k : Nat) (l : List Char) : List Char := List.replicate (k - l.length) '0' ++ l

/-- Exact decimal rendering of a finite JS number (see the module docstring:
JS shortest-round-trip formatting can differ in digits/exponent form, but both
renderings satisfy the numeric grammar, which is all that is used).  The
denominators of values produced by `parseFloat` always divide a power of ten,
so the final fallback is unreachable from parsed values. -/
def renderNum (q : ℚ) : String :=
  let d := q.den
  if 10 ^ d % d = 0 then
    let scaled := q.num.natAbs * (10 ^ d / d)
    let ip := scaled / 10 ^ d
    let fp := scaled % 10 ^ d
    let frac := stripZeros (padDigits d (natDigits fp))
    let signStr := if q.num < 0 then "-" else ""
    if frac.isEmpty then signStr ++ natStr ip
    else signStr ++ natStr ip ++ "." ++ (⟨frac⟩ : String)
  else intStr q.num ++ "/" ++ natStr d

/-- JS number-to-string conversion. -/
def jsNumToString : JsNum → String
  | .nan => "NaN"
  | .inf => "Infinity"
  | .negInf => "-Infinity"
  | .num q => renderNum q

/-- `detectDataType` of `dataValidation.js`: empty, then number, then date
layout, else text.  (There is no `formula` branch in the source.) -/
def detectDataType (value : String) : String :=
  if (jsTrimList value.data).isEmpty then "empty"
  else
    let sv : String := ⟨jsTrimList value.data⟩
    if isValidNumber sv then "number"
    else if looksLikeDate sv then "date"
    else "text"

/-- Result record of `validateValue`. -/
structure ValidationResult where
  isValid : Bool
  detectedType : String
  expectedType : String
  errors : List String
  formattedValue : String
deriving DecidableEq, Repr

/-- `validateValue` of `dataValidation.js`.  `dv` models `new Date` validity
and `df` models `toLocaleDateString`; `expectedType = none` models the `null`
default.  Mirrors the source switch on the type to validate. -/
def validateValue (dv : String → Bool) (df : String → String)
    (value : String) (expectedType : Option String) : ValidationResult :=
  let detected := detectDataType value
  let t := expectedType.getD detected
  if (jsTrimList value.data).isEmpty then
    { isValid := true, detectedType := "empty", expectedType := t,
      errors := [], formattedValue := "" }
  else
    let sv : String := ⟨jsTrimList value.data⟩
    if t = "number" then
      if !isValidNumber sv then
        { isValid := false, detectedType := detected, expectedType := t,
          errors := ["Invalid number format"], formattedValue := value }
      else
        { isValid := true, detectedType := detected, expectedType := t,
          errors := [], formattedValue := jsNumToString (parseFloatJs sv) }
    else if t = "date" then
      if !isValidDate dv sv then
        { isValid := false, detectedType := detected, expectedType := t,
          errors := ["Invalid date format. Use MM/DD/YYYY, YYYY-MM-DD, or similar"],
          formattedValue := value }
      else
        { isValid := true, detectedType := detected, expectedType := t,
          errors := [], formattedValue := df sv }
    else if t = "text" then
      if sv.data.length > 1000 then
        { isValid := false, detectedType := detected, expectedType := t,
          errors := ["Text too long (max 1000 characters)"], formattedValue := sv }
      else
        { isValid := true, detectedType := detected, expectedType := t,
          errors := [], formattedValue := sv }
    else if t = "empty" then
      { isValid := true, detectedType := detected, expectedType := t,
        errors := [], formattedValue := "" }
    else
      { isValid := true, detectedType := detected, expectedType := t,
        errors := [], formattedValue := sv }

end DataValidation

example : DataValidation.detectDataType "42" = "number" := by decide
example : DataValidation.detectDataType "=SUM(A1:A10)" = "text" := by decide
example : DataValidation.detectDataType "  " = "empty" := by decide
example : DataValidation.detectDataType "12/25/2024" = "date" := by decide
example : DataValidation.detectDataType "-3.14" = "number" := by decide
example : DataValidation.detectDataType "1e6" = "number" := by decide
example : parseFloatJs "1e999" = JsNum.inf := by decide
example : parseFloatJs "42abc" = JsNum.num 42 := by decide
example : parseFloatJs "abc" = JsNum.nan := by decide
example : DataValidation.renderNum (Rat.divInt 3 2) = "1.5" := by decide
example : DataValidation.renderNum (Rat.divInt 42 1) = "42" := by decide
example : DataValidation.renderNum (Rat.divInt (-1) 2) = "-0.5" := by decide

namespace Formulas

/-- A parsed cell coordinate: 0-based column and row.  The row is an `Int`
because the source computes `parseInt(rowStr) - 1`, which is `-1` for a row
digit string `"0"`. -/
structure CellPos where
  col : Int
  row : Int
deriving DecidableEq, Repr

/-- `parseCellRef` of the formula module: the anchored regex
`^([A-Z]+)(\d+)$`, column letters folded in bijective base 26 and converted to
a 0-based index, row converted to a 0-based index. -/
def parseCellRef (cellRef : String) : Option CellPos :=
  let L := cellRef.data.takeWhile isUpperAZ
  let D := cellRef.data.drop L.length
  if L.isEmpty || D.isEmpty || !D.all isDigit09 then none
  else
    some ⟨((L.foldl (fun a c => a * 26 + (c.toNat - 65 + 1)) 0 : Nat) : Int) - 1,
          ((digitsToNat D : Nat) : Int) - 1⟩

/-- `String.prototype.split` with a single-character separator. -/
def splitOnChar (sep : Char) : List Char → List (List Char)
  | [] => [[]]
  | c :: rest =>
    if c = sep then [] :: splitOnChar sep rest
    else
      match splitOnChar sep rest with
      | [] => [[c]]
      | g :: gs => (c :: g) :: gs

/-- `parseCellRange`: split on `:`, require exactly two parts, parse both. -/
def parseCellRange (rangeStr : String) : Option (CellPos × CellPos) :=
  match splitOnChar ':' rangeStr.data with
  | [p1, p2] =>
    match parseCellRef ⟨p1⟩, parseCellRef ⟨p2⟩ with
    | some s, some e => some (s, e)
    | _, _ => none
  | _ => none

/-- Fuel-driven bijective base-26 column rendering (the `while (colNum > 0)`
loop of `getCellId`); structural recursion so the kernel can evaluate it. -/
def colLettersGo : Nat → Nat → List Char
  | 0, _ => []
  | fuel + 1, colNum =>
    if colNum = 0 then []
    else colLettersGo fuel ((colNum - 1) / 26) ++ [Char.ofNat (65 + (colNum - 1) % 26)]

/-- Column letters of the 1-based column number `colNum`. -/
def colLetters (colNum : Nat) : List Char := colLettersGo (colNum + 1) colNum

theorem colLettersGo_congr :
    ∀ fuel1 fuel2 n, n < fuel1 → n < fuel2 → colLettersGo fuel1 n = colLettersGo fuel2 n := by
  intro fuel1
  induction fuel1 with
  | zero => intro fuel2 n h1; omega
  | succ f1 ih =>
    intro fuel2 n h1 h2
    cases fuel2 with
    | zero => omega
    | succ f2 =>
      simp only [colLettersGo]
      split
      · rfl
      · rename_i hn
        have hlt : (n - 1) / 26 < n := by
          have : (n - 1) / 26 ≤ n - 1 := Nat.div_le_self _ _
          omega
        rw [ih f2 ((n - 1) / 26) (by omega) (by omega)]

/-- The recursion equation of `colLetters`. -/
theorem colLetters_eq (n : Nat) :
    colLetters n =
      if n = 0 then []
      else colLetters ((n - 1) / 26) ++ [Char.ofNat (65 + (n - 1) % 26)] := by
  have unfold1 : ∀ f m, colLettersGo (f + 1) m =
      if m = 0 then []
      else colLettersGo f ((m - 1) / 26) ++ [Char.ofNat (65 + (m - 1) % 26)] := fun f m => rfl
  unfold colLetters
  rw [unfold1]
  by_cases h : n = 0
  · simp [h]
  · have hlt : (n - 1) / 26 < n := by
      have : (n - 1) / 26 ≤ n - 1 := Nat.div_le_self _ _
      omega
    rw [if_neg h, if_neg h,
      colLettersGo_congr n ((n - 1) / 26 + 1) ((n - 1) / 26) (by omega) (by omega)]

/-- `getCellId` of the formula module: multi-letter column label concatenated
with the 1-based row number. -/
def getCellId (row col : Int) : String :=
  ⟨colLetters (col + 1).toNat ++ (intStr (row + 1)).data⟩

/-- The cell fields the formula module reads. -/
structure FCell where
  value : String
  data_type : String
deriving DecidableEq, Repr

/-- The document object seen by the formula module: its `cells` dictionary,
keyed by coordinate strings. -/
structure SheetData where
  cells : List (String × FCell)
deriving DecidableEq, Repr

/-- JS object read `data.cells[cellId]`. -/
def lookupCell (d : SheetData) (cellId : String) : Option FCell :=
  d.cells.lookup cellId

/-- The inclusive integer interval `[lo, hi]` as a list (the source `for` loops). -/
def intRange (lo hi : Int) : List Int :=
  (List.range (hi + 1 - lo).toNat).map (fun i => lo + i)

/-- `getRangeValues`: iterate the rectangle (inclusive, order-normalised),
collecting `parseFloat` of number cells unconditionally, timestamps of
parseable date cells (`dateParse` models `new Date(v).getTime()`), and
`parseFloat` of text cells when that is not `NaN`. -/
def getRangeValues (dateParse : String → Option ℚ) (rangeStr : String) (d : SheetData) :
    List JsNum :=
  match parseCellRange rangeStr with
  | none => []
  | some (s, e) =>
    (intRange (min s.row e.row) (max s.row e.row)).flatMap fun row =>
      (intRange (min s.col e.col) (max s.col e.col)).filterMap fun col =>
        match lookupCell d (getCellId row col) with
        | none => none
        | some cd =>
          if cd.data_type = "number" then some (parseFloatJs cd.value)
          else if cd.data_type = "date" then (dateParse cd.value).map JsNum.num
          else if cd.data_type = "text" then
            match parseFloatJs cd.value with
            | JsNum.nan => none
            | v => some v
          else none

/-- JS line terminators, which `.` in a regex does not match. -/
def isLineTerm (c : Char) : Bool :=
  c = '\n' || c = '\r' || c = '\u2028' || c = '\u2029'

/-- ASCII upper-casing (`toUpperCase`; the function names involved are ASCII). -/
def jsToUpper (c : Char) : Char := Char.toUpper c

/-- `parseFormula`: requires a leading `=`, then the regex
`^=(\w+)\((.*)\)$` (greedy word run, opening parenthesis, capture up to the
final character which must be `)`, no line terminators in the capture), then
upper-cases the function name and splits the capture on `,` with trimming. -/
def parseFormula (formula : String) : Option (String × List String) :=
  match formula.data with
  | '=' :: rest =>
    let W := rest.takeWhile isWordChar
    if W.isEmpty then none
    else
      match rest.drop W.length with
      | '(' :: inner =>
        match inner.getLast? with
        | some ')' =>
          let capture := inner.dropLast
          if capture.any isLineTerm then none
          else some (⟨W.map jsToUpper⟩, (splitOnChar ',' capture).map (fun a => jsTrim ⟨a⟩))
        | _ => none
      | _ => none
  | _ => none

/-- `reduce((sum, val) => sum + val, 0)`. -/
def sumJs (l : List JsNum) : JsNum := l.foldl JsNum.add (JsNum.num 0)

/-- `evaluateFormula`: `SUM`, `AVERAGE` (0 on an empty value list), `COUNT`;
`null` (`none`) on parse failure, unsupported names, or wrong argument count. -/
def evaluateFormula (dateParse : String → Option ℚ) (formula : String) (d : SheetData) :
    Option JsNum :=
  match parseFormula formula with
  | none => none
  | some (fn, args) =>
    if fn = "SUM" then
      match args with
      | [a] => some (sumJs (getRangeValues dateParse a d))
      | _ => none
    else if fn = "AVERAGE" then
      match args with
      | [a] =>
        let vs := getRangeValues dateParse a d
        if vs.length = 0 then some (JsNum.num 0)
        else some (JsNum.div (sumJs vs) (JsNum.num (Rat.divInt (vs.length : Int) 1)))
      | _ => none
    else if fn = "COUNT" then
      match args with
      | [a] => some (JsNum.num (Rat.divInt ((getRangeValues dateParse a d).length : Int) 1))
      | _ => none
    else none

/-- `isFormula`: a string starting with `=`. -/
def isFormula (value : String) : Bool := litStarts ['='] value.data

/-- `Number.prototype.toFixed(2)` (ES semantics: sign first, then the closest
scaled integer, ties resolved upward). -/
def jsToFixed2 : JsNum → String
  | .nan => "NaN"
  | .inf => "Infinity"
  | .negInf => "-Infinity"
  | .num q =>
    let neg := qLt q 0
    let y := if neg then qNeg q else q
    let n : Int := (200 * y.num + (y.den : Int)).fdiv (2 * (y.den : Int))
    let m := n.toNat
    (if neg then "-" else "") ++ natStr (m / 100) ++ "." ++
      (⟨DataValidation.padDigits 2 (natDigits (m % 100))⟩ : String)

/-- `getFormulaDisplayValue`: `#ERROR!` on `null`, integers without a decimal
point, other numbers with two decimals. -/
def getFormulaDisplayValue (dateParse : String → Option ℚ) (formula : String) (d : SheetData) :
    String :=
  match evaluateFormula dateParse formula d with
  | none => "#ERROR!"
  | some r => if JsNum.isInt r then DataValidation.jsNumToString r else jsToFixed2 r

/-- `getFormulaError`: the non-throwing error taxonomy of the source. -/
def getFormulaError (formula : String) (_data : SheetData) : Option String :=
  if !isFormula formula then none
  else
    match parseFormula formula with
    | none => some "Invalid formula syntax"
    | some (fn, args) =>
      if !(["SUM", "AVERAGE", "COUNT"].contains fn) then
        some ("Unsupported function: " ++ fn)
      else if args.length ≠ 1 then
        some (fn ++ " requires exactly 1 argument")
      else
        match args with
        | [a] => if (parseCellRange a).isNone then some "Invalid cell range" else none
        | _ => some (fn ++ " requires exactly 1 argument")

end Formulas

/-- A concrete stand-in for the engine date parser, usable in closed
statements whose evaluation never consults it (ranges without date cells). -/
def dp0 : String → Option ℚ := fun _ => none

example : Formulas.parseCellRef "A1" = some ⟨0, 0⟩ := by decide
example : Formulas.parseCellRef "AA1" = some ⟨26, 0⟩ := by decide
example : Formulas.parseCellRef "A1B" = none := by decide
example : Formulas.parseCellRange "A1:B2" = some (⟨0, 0⟩, ⟨1, 1⟩) := by decide
example : Formulas.parseCellRange "A1" = none := by decide
example : Formulas.getCellId 0 0 = "A1" := by decide
example : Formulas.getCellId 9 26 = "AA10" := by decide
example : Formulas.parseFormula "=SUM(A1:A10)" = some ("SUM", ["A1:A10"]) := by decide
example : Formulas.parseFormula "=sum(A1:A10)" = some ("SUM", ["A1:A10"]) := by decide
example : Formulas.parseFormula "SUM(A1:A10)" = none := by decide
example : Formulas.evaluateFormula dp0 "=SUM(A1)"
    ⟨[]⟩ = some (JsNum.num 0) := by decide
example : Formulas.getFormulaDisplayValue dp0 "=SUM(A1)" ⟨[]⟩ = "0" := by decide
example : Formulas.getFormulaError "=SUM(A1)" ⟨[]⟩ = some "Invalid cell range" := by decide
example : Formulas.evaluateFormula dp0 "=SUM(A1:A2)"
    ⟨[("A1", ⟨"1", "number"⟩), ("A2", ⟨"2", "number"⟩)]⟩ = some (JsNum.num 3) := by decide

namespace Sheet

/-- Fuel-driven scanner for the unanchored regex `([A-Z]+)(\d+)` of
`parseCellId` (leftmost match): at an upper-case letter, take the maximal
letter run; if digits follow, the match is found (the code reads only the
first letter and the digit run), otherwise no match can start inside this run
and scanning resumes after it. -/
def findRefGo : Nat → List Char → Option (Char × List Char)
  | 0, _ => none
  | _ + 1, [] => none
  | fuel + 1, c :: rest =>
    if isUpperAZ c then
      let letters := rest.takeWhile isUpperAZ
      let after := rest.drop letters.length
      let digits := after.takeWhile isDigit09
      if digits.isEmpty then findRefGo fuel after
      else some (c, digits)
    else findRefGo fuel rest

/-- Leftmost `([A-Z]+)(\d+)` match of a character list: the first letter of
the letter run and the digit run. -/
def findRef (l : List Char) : Option (Char × List Char) := findRefGo l.length l

/-- `parseCellId` of `Spreadsheet.js`: unanchored match, column from the
*first* letter only (`col.charCodeAt(0) - 65`), row `parseInt(rowStr) - 1`.
`none` models the `TypeError` thrown when the match is `null`. -/
def parseCellId (cellId : String) : Option Formulas.CellPos :=
  (findRef cellId.data).map fun cd =>
    ⟨((cd.1.toNat : Int) - 65), ((digitsToNat cd.2 : Nat) : Int) - 1⟩

/-- `getColumnLabel`: `String.fromCharCode(65 + index)` (UTF-16 wrap-around). -/
def getColumnLabel (index : Int) : String :=
  ⟨[Char.ofNat (((65 + index) % 65536).toNat)]⟩

/-- `getCellId` of `Spreadsheet.js`: single-letter column label concatenated
with the 1-based row number. -/
def getCellId (row col : Int) : String := getColumnLabel col ++ intStr (row + 1)

/-- JS object property assignment `m[k] = v`: overwrite in place when the key
exists (keeping its position), otherwise append. -/
def objSet {α : Type} (m : List (String × α)) (k : String) (v : α) : List (String × α) :=
  if m.any (fun p => p.1 == k) then m.map (fun p => if p.1 == k then (k, v) else p)
  else m ++ [(k, v)]

/-- Build a JS object by a sequence of assignments in iteration order. -/
def objOfPairs {α : Type} (l : List (String × α)) : List (String × α) :=
  l.foldl (fun acc kv => objSet acc kv.1 kv.2) []

/-- Traverse a list under `Option`, structurally (`none` as soon as one
element fails, modelling an exception thrown during `forEach`). -/
def mapOrThrow {α β : Type} (g : α → Option β) : List α → Option (List β)
  | [] => some []
  | e :: rest =>
    match g e, mapOrThrow g rest with
    | some b, some bs => some (b :: bs)
    | _, _ => none

/-- `insertRowAt` (core remapping): each stored cell at parsed row `≥ k` is
reassigned to the same column one row down, others keep their key; the new
object is built by assignment.  `none` models the `TypeError` on a key without
a letter-digit match (the handler would throw and update nothing). -/
def insertRowAt {α : Type} (k : Int) (cells : List (String × α)) :
    Option (List (String × α)) :=
  (mapOrThrow (fun e => (parseCellId e.1).map
    (fun p => if p.row ≥ k then (getCellId (p.row + 1) p.col, e.2) else e)) cells).map
    objOfPairs

/-- `deleteRowAt` (core remapping): cells at parsed row `= k` are dropped,
rows `> k` move one row up, others keep their key. -/
def deleteRowAt {α : Type} (k : Int) (cells : List (String × α)) :
    Option (List (String × α)) :=
  (mapOrThrow (fun e => (parseCellId e.1).map (fun p => (p, e))) cells).map fun mapped =>
    objOfPairs (mapped.filterMap (fun pe =>
      if pe.1.row = k then none
      else if pe.1.row > k then some (getCellId (pe.1.row - 1) pe.1.col, pe.2.2)
      else some pe.2))

/-- The cell record stored by the `cell_updated` handler. -/
structure CellJson where
  value : String
  original_value : String
  data_type : String
  is_valid : Bool
  validation_errors : List String
  last_modified_by : String
  last_modified_at : String
deriving DecidableEq, Repr

/-- The payload of a `cell_updated` broadcast. -/
structure CellUpdatedEvent where
  cell_id : String
  value : String
  original_value : String
  data_type : String
  is_valid : Bool
  validation_errors : List String
  user_id : String
deriving DecidableEq, Repr

/-- The `cell_updated` handler: unconditionally overwrite the entry at
`cell_id` with the event fields (`now` models `new Date().toISOString()`). -/
def applyCellUpdated (now : String) (cells : List (String × CellJson))
    (e : CellUpdatedEvent) : List (String × CellJson) :=
  objSet cells e.cell_id
    ⟨e.value, e.original_value, e.data_type, e.is_valid, e.validation_errors, e.user_id, now⟩

/-- A remote user's selection entry. -/
structure SelEntry where
  user_id : String
  user_name : String
  user_color : String
deriving DecidableEq, Repr

/-- The payload of a `cell_selected` broadcast. -/
structure SelEvent where
  cell_id : String
  user_id : String
  user_name : String
  user_color : String
deriving DecidableEq, Repr

/-- The `cell_selected` handler: events from the local socket are ignored;
otherwise every entry held by the event's user is deleted and the new
selection is recorded at the event's cell. -/
def applyCellSelected (selfId : String) (m : List (String × SelEntry))
    (e : SelEvent) : List (String × SelEntry) :=
  if e.user_id == selfId then m
  else
    objSet (m.filter (fun p => !(p.2.user_id == e.user_id))) e.cell_id
      ⟨e.user_id, e.user_name, e.user_color⟩

end Sheet

example : Sheet.parseCellId "B12" = some ⟨1, 11⟩ := by decide
example : Sheet.parseCellId "AA5" = some ⟨0, 4⟩ := by decide
example : Sheet.parseCellId "xB12y" = some ⟨1, 11⟩ := by decide
example : Sheet.parseCellId "12" = none := by decide
example : Sheet.getCellId 11 1 = "B12" := by decide
example : Sheet.insertRowAt 1 [("A1", 0), ("A2", 1), ("B3", 2)] =
    some [("A1", 0), ("A3", 1), ("B4", 2)] := by decide
example : Sheet.deleteRowAt 1 [("A1", 0), ("A2", 1), ("B3", 2)] =
    some [("A1", 0), ("B2", 2)] := by decide
example : Sheet.insertRowAt 0 [("", 0)] = (none : Option (List (String × Nat))) := by decide

/-! Character and digit-list facts used throughout. -/

theorem charOfNat_toNat {m : Nat} (h : m < 55296) : (Char.ofNat m).toNat = m := by
  unfold Char.ofNat
  rw [dif_pos (Or.inl h)]
  unfold Char.ofNatAux Char.toNat
  simp [UInt32.toNat, BitVec.toNat_ofNatLt]

theorem isDigit09_iff (c : Char) : isDigit09 c = true ↔ 48 ≤ c.toNat ∧ c.toNat ≤ 57 := by
  simp [isDigit09, Char.le_def, Char.toNat, UInt32.le_def, BitVec.le_def, UInt32.toNat]

theorem isUpperAZ_iff (c : Char) : isUpperAZ c = true ↔ 65 ≤ c.toNat ∧ c.toNat ≤ 90 := by
  simp [isUpperAZ, Char.le_def, Char.toNat, UInt32.le_def, BitVec.le_def, UInt32.toNat]

theorem not_upper_of_digit {c : Char} (h : isDigit09 c = true) : isUpperAZ c = false := by
  rw [isDigit09_iff] at h
  by_contra hu
  rw [Bool.not_eq_false, isUpperAZ_iff] at hu
  omega

theorem takeWhile_append_all (p : Char → Bool) (l1 l2 : List Char)
    (h : ∀ c ∈ l1, p c = true) :
    (l1 ++ l2).takeWhile p = l1 ++ l2.takeWhile p := by
  induction l1 with
  | nil => simp
  | cons c rest ih =>
    simp only [List.cons_append, List.takeWhile_cons]
    rw [h c (by simp)]
    simp [ih (fun c hc => h c (by simp [hc]))]

theorem takeWhile_all (p : Char → Bool) (l : List Char) (h : ∀ c ∈ l, p c = true) :
    l.takeWhile p = l := by
  simpa using takeWhile_append_all p l [] h

theorem takeWhile_nil_of_head (p : Char → Bool) (c : Char) (l : List Char) (h : p c = false) :
    (c :: l).takeWhile p = [] := by
  simp [List.takeWhile_cons, h]

theorem natDigits_all_digit (n : Nat) : ∀ c ∈ natDigits n, isDigit09 c = true := by
  induction n using Nat.strong_induction_on with
  | _ n ih =>
    rw [natDigits_eq]
    by_cases h : n < 10
    · simp only [if_pos h, List.mem_singleton]
      rintro c rfl
      rw [isDigit09_iff, charOfNat_toNat (by omega)]
      omega
    · simp only [if_neg h]
      intro c hc
      rcases List.mem_append.mp hc with h1 | h2
      · exact ih (n / 10) (Nat.div_lt_self (by omega) (by omega)) c h1
      · simp only [List.mem_singleton] at h2
        subst h2
        rw [isDigit09_iff, charOfNat_toNat (by omega)]
        have := Nat.mod_lt n (show 0 < 10 by omega)
        omega

theorem natDigits_ne_nil (n : Nat) : natDigits n ≠ [] := by
  rw [natDigits_eq]
  split <;> simp

theorem digitsToNat_natDigits (n : Nat) : digitsToNat (natDigits n) = n := by
  induction n using Nat.strong_induction_on with
  | _ n ih =>
    rw [natDigits_eq]
    by_cases h : n < 10
    · simp only [if_pos h]
      unfold digitsToNat digitVal
      simp [charOfNat_toNat (show 48 + n < 55296 by omega)]
    · simp only [if_neg h]
      unfold digitsToNat
      rw [List.foldl_append]
      have ihv := ih (n / 10) (Nat.div_lt_self (by omega) (by omega))
      unfold digitsToNat at ihv
      simp only [List.foldl_cons, List.foldl_nil]
      rw [ihv]
      unfold digitVal
      rw [charOfNat_toNat (show 48 + n % 10 < 55296 by omega)]
      omega

theorem colLetters_all_upper (n : Nat) : ∀ c ∈ Formulas.colLetters n, isUpperAZ c = true := by
  induction n using Nat.strong_induction_on with
  | _ n ih =>
    rw [Formulas.colLetters_eq]
    by_cases h : n = 0
    · simp [h]
    · simp only [if_neg h]
      intro c hc
      rcases List.mem_append.mp hc with h1 | h2
      · have hlt : (n - 1) / 26 < n := by
          have := Nat.div_le_self (n - 1) 26
          omega
        exact ih _ hlt c h1
      · simp only [List.mem_singleton] at h2
        subst h2
        rw [isUpperAZ_iff, charOfNat_toNat (by omega)]
        have := Nat.mod_lt (n - 1) (show 0 < 26 by omega)
        omega

theorem colLetters_ne_nil {n : Nat} (h : n ≠ 0) : Formulas.colLetters n ≠ [] := by
  rw [Formulas.colLetters_eq, if_neg h]
  simp

theorem colLetters_decode (n : Nat) :
    ∀ a : Nat, (Formulas.colLetters n).foldl (fun a c => a * 26 + (c.toNat - 65 + 1)) a =
      a * 26 ^ (Formulas.colLetters n).length + n := by
  induction n using Nat.strong_induction_on with
  | _ n ih =>
    intro a
    rw [Formulas.colLetters_eq]
    by_cases h : n = 0
    · simp [h]
    · simp only [if_neg h]
      rw [List.foldl_append, List.length_append]
      have hlt : (n - 1) / 26 < n := by
        have := Nat.div_le_self (n - 1) 26
        omega
      rw [ih _ hlt]
      simp only [List.foldl_cons, List.foldl_nil, List.length_singleton]
      rw [charOfNat_toNat (show 65 + (n - 1) % 26 < 55296 by omega)]
      have hmod : (n - 1) % 26 < 26 := Nat.mod_lt _ (by omega)
      have hdm : 26 * ((n - 1) / 26) + (n - 1) % 26 = n - 1 := Nat.div_add_mod (n - 1) 26
      have hexp : (a * 26 ^ (Formulas.colLetters ((n - 1) / 26)).length + (n - 1) / 26) * 26 +
          (65 + (n - 1) % 26 - 65 + 1) =
          a * 26 ^ ((Formulas.colLetters ((n - 1) / 26)).length + 1) +
            (26 * ((n - 1) / 26) + (n - 1) % 26 + 1) := by
        rw [pow_succ]
        ring_nf
        omega
      rw [hexp, hdm]
      omega

theorem isEmpty_false_of_ne_nil {α : Type} {l : List α} (h : l ≠ []) : l.isEmpty = false := by
  cases l with
  | nil => exact absurd rfl h
  | cons a t => rfl

/-- C10: parsing the generated coordinate string round-trips to the original
0-based indices, for every non-negative row and column, including multi-letter
columns (`col ≥ 26`). -/
theorem C10_coordinate_roundtrip (row col : Nat) :
    Formulas.parseCellRef (Formulas.getCellId (row : Int) (col : Int)) =
      some ⟨(col : Int), (row : Int)⟩ := by
  have hupper := colLetters_all_upper (col + 1)
  have hdig := natDigits_all_digit (row + 1)
  have hdnil := natDigits_ne_nil (row + 1)
  have hlnil : Formulas.colLetters (col + 1) ≠ [] := colLetters_ne_nil (by omega)
  have hdata : (Formulas.getCellId (row : Int) (col : Int)).data =
      Formulas.colLetters (col + 1) ++ natDigits (row + 1) := by
    unfold Formulas.getCellId
    have h1 : ((col : Int) + 1).toNat = col + 1 := by omega
    have h2 : ((row : Int) + 1).toNat = row + 1 := by omega
    rw [h1]
    unfold intStr
    rw [if_neg (by omega)]
    rw [h2]
    rfl
  have hTW : (Formulas.colLetters (col + 1) ++ natDigits (row + 1)).takeWhile isUpperAZ =
      Formulas.colLetters (col + 1) := by
    rw [takeWhile_append_all _ _ _ hupper]
    cases hn : natDigits (row + 1) with
    | nil => simp
    | cons c rest =>
      rw [takeWhile_nil_of_head _ _ _ (not_upper_of_digit (hdig c (by rw [hn]; simp)))]
      simp
  unfold Formulas.parseCellRef
  rw [hdata, hTW]
  dsimp only
  rw [List.drop_left]
  rw [isEmpty_false_of_ne_nil hlnil, isEmpty_false_of_ne_nil hdnil,
    List.all_eq_true.mpr hdig]
  simp only [Bool.false_or, Bool.not_true, Bool.false_eq_true, if_false]
  have hfold := colLetters_decode (col + 1) 0
  rw [zero_mul, zero_add] at hfold
  rw [hfold, digitsToNat_natDigits]
  have h1 : ((col + 1 : ℕ) : ℤ) - 1 = (col : ℤ) := by push_cast; ring
  have h2 : ((row + 1 : ℕ) : ℤ) - 1 = (row : ℤ) := by push_cast; ring
  rw [h1, h2]

/-- A concrete stand-in for engine `new Date` validity, usable in closed
statements whose evaluation path never consults it. -/
def dv0 : String → Bool := fun _ => false

/-- A concrete stand-in for locale date formatting, usable in closed
statements whose evaluation path never consults it. -/
def df0 : String → String := fun s => s

/-- C1: the spec says a trimmed value starting with `=` is classified as type
`formula`; the `detectDataType` in the source has no formula branch and
classifies `"=SUM(A1:A10)"` as `text` (valid, since it is short), so the
formula branches its callers test for (`detectedType === 'formula'`) can never
be taken. -/
theorem C1_detect_formula_is_text :
    DataValidation.detectDataType "=SUM(A1:A10)" = "text" ∧
    "text" ≠ "formula" ∧
    (DataValidation.validateValue dv0 df0 "=SUM(A1:A10)" none).detectedType = "text" ∧
    (DataValidation.validateValue dv0 df0 "=SUM(A1:A10)" none).isValid = true := by
  refine ⟨by decide, by decide, by decide, by decide⟩

theorem lookup_objSet {α : Type} (m : List (String × α)) (k : String) (v : α) :
    (Sheet.objSet m k v).lookup k = some v := by
  unfold Sheet.objSet
  split
  · rename_i hany
    induction m with
    | nil => simp at hany
    | cons p rest ih =>
      obtain ⟨pk, pv⟩ := p
      simp only [List.any_cons, Bool.or_eq_true] at hany
      simp only [List.map_cons]
      by_cases hp : (pk == k) = true
      · rw [if_pos hp]
        simp [List.lookup]
      · rw [if_neg hp]
        simp only [List.lookup]
        have hk : (k == pk) = false := by
          rw [beq_eq_false_iff_ne]
          intro he
          exact hp (by rw [beq_iff_eq]; exact he.symm)
        rw [hk]
        exact ih (hany.resolve_left hp)
  · rename_i hany
    simp only [List.any_eq_true, not_exists, not_and] at hany
    induction m with
    | nil => simp [List.lookup]
    | cons p rest ih =>
      obtain ⟨pk, pv⟩ := p
      simp only [List.cons_append, List.lookup]
      have hk : (k == pk) = false := by
        rw [beq_eq_false_iff_ne]
        intro he
        exact hany (pk, pv) (by simp) (beq_iff_eq.mpr he.symm)
      rw [hk]
      exact ih (fun q hq => hany q (by simp [hq]))

/-- C3: the `cell_updated` handler overwrites unconditionally; after two
events for the same cell, the map holds exactly the second event's fields
(last-write-wins, no version check, merge, or rejection). -/
theorem C3_last_write_wins (cells : List (String × Sheet.CellJson))
    (e1 e2 : Sheet.CellUpdatedEvent) (now1 now2 : String)
    (_h : e1.cell_id = e2.cell_id) :
    (Sheet.applyCellUpdated now2 (Sheet.applyCellUpdated now1 cells e1) e2).lookup e2.cell_id =
      some ⟨e2.value, e2.original_value, e2.data_type, e2.is_valid, e2.validation_errors,
        e2.user_id, now2⟩ := by
  unfold Sheet.applyCellUpdated
  exact lookup_objSet _ _ _

/-- Witness for C3 at concrete events on the same cell. -/
theorem C3_witness :
    (Sheet.applyCellUpdated "t2"
        (Sheet.applyCellUpdated "t1" [] ⟨"A1", "x", "x", "text", true, [], "u1"⟩)
        ⟨"A1", "y", "y", "text", true, [], "u2"⟩).lookup "A1" =
      some ⟨"y", "y", "text", true, [], "u2", "t2"⟩ :=
  C3_last_write_wins [] ⟨"A1", "x", "x", "text", true, [], "u1"⟩
    ⟨"A1", "y", "y", "text", true, [], "u2"⟩ "t1" "t2" rfl

/-- The document state of C8: cells `A1`..`A10` holding `"1"`..`"10"`, typed
`number`. -/
def data10 : Formulas.SheetData :=
  ⟨[("A1", ⟨"1", "number"⟩), ("A2", ⟨"2", "number"⟩), ("A3", ⟨"3", "number"⟩),
    ("A4", ⟨"4", "number"⟩), ("A5", ⟨"5", "number"⟩), ("A6", ⟨"6", "number"⟩),
    ("A7", ⟨"7", "number"⟩), ("A8", ⟨"8", "number"⟩), ("A9", ⟨"9", "number"⟩),
    ("A10", ⟨"10", "number"⟩)]⟩

theorem evalFormula_SUM (dp : String → Option ℚ) (f a : String) (d : Formulas.SheetData)
    (h : Formulas.parseFormula f = some ("SUM", [a])) :
    Formulas.evaluateFormula dp f d =
      some (Formulas.sumJs (Formulas.getRangeValues dp a d)) := by
  unfold Formulas.evaluateFormula
  rw [h]
  rfl

theorem evalFormula_AVERAGE (dp : String → Option ℚ) (f a : String) (d : Formulas.SheetData)
    (h : Formulas.parseFormula f = some ("AVERAGE", [a])) :
    Formulas.evaluateFormula dp f d =
      (if (Formulas.getRangeValues dp a d).length = 0 then some (JsNum.num 0)
       else some (JsNum.div (Formulas.sumJs (Formulas.getRangeValues dp a d))
        (JsNum.num (Rat.divInt ((Formulas.getRangeValues dp a d).length : Int) 1)))) := by
  unfold Formulas.evaluateFormula
  rw [h]
  rfl

theorem evalFormula_COUNT (dp : String → Option ℚ) (f a : String) (d : Formulas.SheetData)
    (h : Formulas.parseFormula f = some ("COUNT", [a])) :
    Formulas.evaluateFormula dp f d =
      some (JsNum.num (Rat.divInt ((Formulas.getRangeValues dp a d).length : Int) 1)) := by
  unfold Formulas.evaluateFormula
  rw [h]
  rfl

/-- C8: over `A1`..`A10` holding `"1"`..`"10"` as numbers, `=SUM(A1:A10)`
evaluates to 55, `=AVERAGE(A1:A10)` to 5.5, and `=COUNT(A1:A10)` to 10, for
every date parser (no date cells are in range). -/
theorem C8_sum_average_count (dateParse : String → Option ℚ) :
    Formulas.evaluateFormula dateParse "=SUM(A1:A10)" data10 = some (JsNum.num 55) ∧
    Formulas.evaluateFormula dateParse "=AVERAGE(A1:A10)" data10 =
      some (JsNum.num (11 / 2)) ∧
    Formulas.evaluateFormula dateParse "=COUNT(A1:A10)" data10 = some (JsNum.num 10) := by
  have hl : Formulas.getRangeValues dateParse "A1:A10" data10 =
      [JsNum.num 1, JsNum.num 2, JsNum.num 3, JsNum.num 4, JsNum.num 5,
       JsNum.num 6, JsNum.num 7, JsNum.num 8, JsNum.num 9, JsNum.num 10] := rfl
  have hhalf : (11 / 2 : ℚ) = Rat.divInt 11 2 := by
    rw [Rat.divInt_eq_div]
    norm_num
  refine ⟨?_, ?_, ?_⟩
  · rw [evalFormula_SUM dateParse _ "A1:A10" _ (by decide), hl]
    decide
  · rw [evalFormula_AVERAGE dateParse _ "A1:A10" _ (by decide), hl, hhalf]
    decide
  · rw [evalFormula_COUNT dateParse _ "A1:A10" _ (by decide), hl]
    decide

theorem parseFormula_some_isFormula {f : String} {x : String × List String}
    (h : Formulas.parseFormula f = some x) : Formulas.isFormula f = true := by
  unfold Formulas.parseFormula at h
  split at h
  · rename_i rest heq
    unfold Formulas.isFormula
    rw [heq]
    simp [litStarts]
  · exact absurd h (by simp)

theorem getRangeValues_of_range_none (dp : String → Option ℚ) (a : String)
    (d : Formulas.SheetData) (h : Formulas.parseCellRange a = none) :
    Formulas.getRangeValues dp a d = [] := by
  unfold Formulas.getRangeValues
  rw [h]

/-- C7 counterexample: `=SUM(A1)` (scalar reference, no colon) is *not*
rejected by evaluation: `evaluateFormula` returns 0 (not `null`), the display
is `"0"` (not `#ERROR!`); only `getFormulaError` reports the invalid range. -/
theorem C7_counterexample :
    Formulas.evaluateFormula dp0 "=SUM(A1)" ⟨[]⟩ = some (JsNum.num 0) ∧
    Formulas.getFormulaDisplayValue dp0 "=SUM(A1)" ⟨[]⟩ = "0" ∧
    "0" ≠ "#ERROR!" ∧
    Formulas.getFormulaError "=SUM(A1)" ⟨[]⟩ = some "Invalid cell range" := by
  refine ⟨by decide, by decide, by decide, by decide⟩

/-- C7 amended: for every document and every `=SUM(ref)` whose single argument
is a parseable scalar cell reference but not a colon range, `getFormulaError`
reports "Invalid cell range", while `evaluateFormula` treats the range as
empty and returns 0, so the display shows `"0"` rather than `#ERROR!`. -/
theorem C7_scalar_ref_rejected_only_in_error_path (dp : String → Option ℚ)
    (d : Formulas.SheetData) (f r : String)
    (hp : Formulas.parseFormula f = some ("SUM", [r]))
    (_hs : (Formulas.parseCellRef r).isSome = true)
    (hr : Formulas.parseCellRange r = none) :
    Formulas.evaluateFormula dp f d = some (JsNum.num 0) ∧
    Formulas.getFormulaDisplayValue dp f d = "0" ∧
    Formulas.getFormulaError f d = some "Invalid cell range" := by
  have heval : Formulas.evaluateFormula dp f d = some (JsNum.num 0) := by
    rw [evalFormula_SUM dp f r d hp, getRangeValues_of_range_none dp r d hr]
    rfl
  refine ⟨heval, ?_, ?_⟩
  · unfold Formulas.getFormulaDisplayValue
    rw [heval]
    decide
  · unfold Formulas.getFormulaError
    rw [parseFormula_some_isFormula hp, hp]
    simp only [Bool.not_true, Bool.false_eq_true, if_false]
    rw [hr]
    rfl

/-- Witness for C7 at `=SUM(A1)` over a document where `A1` holds the number 7:
the scalar reference is still evaluated as an empty range. -/
theorem C7_witness :
    Formulas.evaluateFormula dp0 "=SUM(A1)" ⟨[("A1", ⟨"7", "number"⟩)]⟩ =
      some (JsNum.num 0) ∧
    Formulas.getFormulaDisplayValue dp0 "=SUM(A1)" ⟨[("A1", ⟨"7", "number"⟩)]⟩ = "0" ∧
    Formulas.getFormulaError "=SUM(A1)" ⟨[("A1", ⟨"7", "number"⟩)]⟩ =
      some "Invalid cell range" :=
  C7_scalar_ref_rejected_only_in_error_path dp0 ⟨[("A1", ⟨"7", "number"⟩)]⟩ "=SUM(A1)" "A1"
    (by decide) (by decide) (by decide)

theorem countP_filter_le {α : Type} (q g : α → Bool) (m : List α) :
    (m.filter g).countP q ≤ m.countP q := by
  induction m with
  | nil => simp
  | cons p rest ih =>
    by_cases hg : g p = true
    · rw [List.filter_cons_of_pos hg]
      simp only [List.countP_cons]
      omega
    · rw [List.filter_cons_of_neg (by simpa using hg)]
      simp only [List.countP_cons]
      omega

theorem keys_map_replace {α : Type} (k : String) (v : α) (m : List (String × α)) :
    (m.map (fun p => if p.1 == k then (k, v) else p)).map Prod.fst = m.map Prod.fst := by
  induction m with
  | nil => rfl
  | cons p rest ih =>
    simp only [List.map_cons, ih]
    by_cases hp : (p.1 == k) = true
    · rw [if_pos hp]
      have : k = p.1 := (beq_iff_eq.mp hp).symm
      simp [this]
    · rw [if_neg hp]

theorem countP_map_replace_le {α : Type} (q : String × α → Bool) (k : String) (v : α)
    (hkv : q (k, v) = false) (m : List (String × α)) :
    (m.map (fun p => if p.1 == k then (k, v) else p)).countP q ≤ m.countP q := by
  induction m with
  | nil => simp
  | cons p rest ih =>
    simp only [List.map_cons, List.countP_cons]
    by_cases hp : (p.1 == k) = true
    · rw [if_pos hp, hkv]
      simp only [Bool.false_eq_true, if_false]
      omega
    · rw [if_neg hp]
      omega

theorem countP_map_replace_le_one {α : Type} (q : String × α → Bool) (k : String) (v : α) :
    ∀ m : List (String × α), (m.map Prod.fst).Nodup → m.countP q = 0 →
      (m.map (fun p => if p.1 == k then (k, v) else p)).countP q ≤ 1 := by
  intro m
  induction m with
  | nil => simp
  | cons p rest ih =>
    intro hnd h0
    simp only [List.map_cons, List.nodup_cons] at hnd
    simp only [List.countP_cons] at h0
    have hqp : q p = false := by
      cases hq : q p with
      | false => rfl
      | true => rw [hq] at h0; simp at h0
    have h0r : rest.countP q = 0 := by
      rw [hqp] at h0; omega
    simp only [List.map_cons, List.countP_cons]
    by_cases hp : (p.1 == k) = true
    · -- the replaced entry; no other entry has key `k`, so the rest maps to itself
      have hk : p.1 = k := beq_iff_eq.mp hp
      have hrest : rest.map (fun p => if p.1 == k then (k, v) else p) = rest := by
        conv_rhs => rw [← List.map_id rest]
        apply List.map_congr_left
        intro x hx
        have hxk : x.1 ≠ k := by
          intro he
          apply hnd.1
          rw [hk, ← he]
          exact List.mem_map_of_mem Prod.fst hx
        rw [if_neg (by simpa using hxk)]
        rfl
      rw [if_pos hp, hrest, h0r]
      split <;> omega
    · rw [if_neg hp, hqp]
      simp only [Bool.false_eq_true, if_false]
      have := ih hnd.2 h0r
      omega

theorem nodup_keys_objSet {α : Type} (m : List (String × α)) (k : String) (v : α)
    (h : (m.map Prod.fst).Nodup) : ((Sheet.objSet m k v).map Prod.fst).Nodup := by
  unfold Sheet.objSet
  split
  · rw [keys_map_replace]
    exact h
  · rename_i hany
    rw [List.map_append]
    have hk : k ∉ m.map Prod.fst := by
      intro hmem
      rcases List.mem_map.mp hmem with ⟨p, hp, hpk⟩
      exact hany (List.any_eq_true.mpr ⟨p, hp, by rw [beq_iff_eq]; exact hpk⟩)
    simp [List.nodup_append, h, hk]

theorem nodup_keys_filter {α : Type} (g : String × α → Bool) (m : List (String × α))
    (h : (m.map Prod.fst).Nodup) : ((m.filter g).map Prod.fst).Nodup := by
  exact h.sublist (List.Sublist.map Prod.fst (List.filter_sublist m))

theorem selectedStep (selfId : String) (e : Sheet.SelEvent) (m : List (String × Sheet.SelEntry))
    (hnd : (m.map Prod.fst).Nodup)
    (hcnt : ∀ u, m.countP (fun p => p.2.user_id == u) ≤ 1) :
    ((Sheet.applyCellSelected selfId m e).map Prod.fst).Nodup ∧
    (∀ u, (Sheet.applyCellSelected selfId m e).countP (fun p => p.2.user_id == u) ≤ 1) := by
  unfold Sheet.applyCellSelected
  by_cases hself : (e.user_id == selfId) = true
  · rw [if_pos hself]
    exact ⟨hnd, hcnt⟩
  · rw [if_neg hself]
    set mf := m.filter (fun p => !(p.2.user_id == e.user_id)) with hmf
    have hndf : (mf.map Prod.fst).Nodup := nodup_keys_filter _ m hnd
    refine ⟨nodup_keys_objSet mf e.cell_id _ hndf, ?_⟩
    intro u
    by_cases hu : u = e.user_id
    · -- the event's user: all previous entries were filtered out
      have h0 : mf.countP (fun p => p.2.user_id == u) = 0 := by
        rw [List.countP_eq_zero]
        intro p hp
        have := List.of_mem_filter hp
        simp only [Bool.not_eq_true'] at this
        rw [hu]
        simpa using this
      unfold Sheet.objSet
      split
      · exact countP_map_replace_le_one _ _ _ mf hndf h0
      · rw [List.countP_append, h0]
        simp only [List.countP_cons, List.countP_nil, Nat.zero_add]
        split <;> omega
    · -- any other user: the new entry does not count, and filtering only removes
      have hkv : ((⟨e.user_id, e.user_name, e.user_color⟩ : Sheet.SelEntry).user_id == u) = false := by
        rw [beq_eq_false_iff_ne]
        exact fun he => hu he.symm
      have hle : (Sheet.objSet mf e.cell_id ⟨e.user_id, e.user_name, e.user_color⟩).countP
          (fun p => p.2.user_id == u) ≤ mf.countP (fun p => p.2.user_id == u) := by
        unfold Sheet.objSet
        split
        · exact countP_map_replace_le _ _ _ hkv mf
        · rw [List.countP_append]
          simp [List.countP_cons, hkv]
      calc (Sheet.objSet mf e.cell_id ⟨e.user_id, e.user_name, e.user_color⟩).countP
            (fun p => p.2.user_id == u)
        ≤ mf.countP (fun p => p.2.user_id == u) := hle
      _ ≤ m.countP (fun p => p.2.user_id == u) := countP_filter_le _ _ m
      _ ≤ 1 := hcnt u

/-- C9: processing `cell_selected` removes every entry of the event's user
before recording the new one, so from the empty map every remote user occupies
at most one entry of `userSelections` after any event sequence. -/
theorem C9_selection_unique (selfId : String) (events : List Sheet.SelEvent) (u : String) :
    ((events.foldl (Sheet.applyCellSelected selfId) []).countP
      (fun p => p.2.user_id == u)) ≤ 1 := by
  have key : ∀ (evs : List Sheet.SelEvent) (m : List (String × Sheet.SelEntry)),
      (m.map Prod.fst).Nodup → (∀ u', m.countP (fun p => p.2.user_id == u') ≤ 1) →
      ((evs.foldl (Sheet.applyCellSelected selfId) m).map Prod.fst).Nodup ∧
      (∀ u', (evs.foldl (Sheet.applyCellSelected selfId) m).countP
        (fun p => p.2.user_id == u') ≤ 1) := by
    intro evs
    induction evs with
    | nil => intro m h1 h2; exact ⟨h1, h2⟩
    | cons e rest ih =>
      intro m h1 h2
      have step := selectedStep selfId e m h1 h2
      exact ih _ step.1 step.2
  exact (key events [] (by simp) (fun u' => by simp)).2 u

theorem intStr_natCast (n : Nat) : intStr ((n : Nat) : Int) = natStr n := by
  unfold intStr
  rw [if_neg (by omega)]
  congr 1

theorem sheet_getCellId_data (r c : Nat) (hc : c < 26) :
    (Sheet.getCellId (r : Int) (c : Int)).data = Char.ofNat (65 + c) :: natDigits (r + 1) := by
  unfold Sheet.getCellId Sheet.getColumnLabel
  have h1 : ((65 : Int) + (c : Int)) % 65536 = ((65 + c : Nat) : Int) := by
    omega
  have h2 : ((r : Int) + 1) = (((r + 1 : Nat) : Nat) : Int) := by omega
  rw [h1, h2, intStr_natCast]
  show (⟨[Char.ofNat (((65 + c : Nat) : Int)).toNat]⟩ ++ (⟨natDigits (r + 1)⟩ : String)).data = _
  have h3 : (((65 + c : Nat) : Int)).toNat = 65 + c := by omega
  rw [h3]
  rfl

theorem sheet_parse_getCellId (r c : Nat) (hc : c < 26) :
    Sheet.parseCellId (Sheet.getCellId (r : Int) (c : Int)) =
      some ⟨(c : Int), (r : Int)⟩ := by
  unfold Sheet.parseCellId
  rw [sheet_getCellId_data r c hc]
  have hch : (Char.ofNat (65 + c)).toNat = 65 + c := charOfNat_toNat (by omega)
  have hup : isUpperAZ (Char.ofNat (65 + c)) = true := by
    rw [isUpperAZ_iff, hch]
    omega
  have hfr : Sheet.findRef (Char.ofNat (65 + c) :: natDigits (r + 1)) =
      some (Char.ofNat (65 + c), natDigits (r + 1)) := by
    have hstep : ∀ f (ch : Char) rest, Sheet.findRefGo (f + 1) (ch :: rest) =
        if isUpperAZ ch then
          (let letters := rest.takeWhile isUpperAZ
           let after := rest.drop letters.length
           let digits := after.takeWhile isDigit09
           if digits.isEmpty then Sheet.findRefGo f after else some (ch, digits))
        else Sheet.findRefGo f rest := fun _ _ _ => rfl
    show Sheet.findRefGo ((natDigits (r + 1)).length + 1) (Char.ofNat (65 + c) :: natDigits (r + 1)) = _
    rw [hstep, if_pos hup]
    have hTW0 : (natDigits (r + 1)).takeWhile isUpperAZ = [] := by
      cases hn : natDigits (r + 1) with
      | nil => rfl
      | cons d rest =>
        exact takeWhile_nil_of_head _ _ _
          (not_upper_of_digit (natDigits_all_digit (r + 1) d (by rw [hn]; simp)))
    rw [hTW0]
    dsimp only
    rw [List.length_nil, List.drop_zero,
      takeWhile_all isDigit09 (natDigits (r + 1)) (natDigits_all_digit (r + 1)),
      isEmpty_false_of_ne_nil (natDigits_ne_nil (r + 1))]
    rfl
  rw [hfr]
  show some _ = some _
  congr 1
  dsimp only
  rw [hch, digitsToNat_natDigits]
  congr 1 <;> omega

theorem sheet_getCellId_inj {r1 c1 r2 c2 : Nat} (h1 : c1 < 26) (h2 : c2 < 26)
    (h : Sheet.getCellId (r1 : Int) (c1 : Int) = Sheet.getCellId (r2 : Int) (c2 : Int)) :
    r1 = r2 ∧ c1 = c2 := by
  have hp := sheet_parse_getCellId r1 c1 h1
  rw [h, sheet_parse_getCellId r2 c2 h2] at hp
  have hmk := Option.some.inj hp
  have hcol : (c2 : Int) = (c1 : Int) := congrArg Formulas.CellPos.col hmk
  have hrow : (r2 : Int) = (r1 : Int) := congrArg Formulas.CellPos.row hmk
  omega

theorem objSet_append_of_fresh {α : Type} (m : List (String × α)) (k : String) (v : α)
    (h : k ∉ m.map Prod.fst) : Sheet.objSet m k v = m ++ [(k, v)] := by
  unfold Sheet.objSet
  rw [if_neg]
  intro hany
  rcases List.any_eq_true.mp hany with ⟨p, hp, hpk⟩
  exact h (List.mem_map.mpr ⟨p, hp, beq_iff_eq.mp hpk⟩)

theorem objOfPairs_aux {α : Type} :
    ∀ (l acc : List (String × α)), ((acc ++ l).map Prod.fst).Nodup →
      List.foldl (fun acc kv => Sheet.objSet acc kv.1 kv.2) acc l = acc ++ l := by
  intro l
  induction l with
  | nil => intro acc _; simp
  | cons kv rest ih =>
    intro acc h
    simp only [List.foldl_cons]
    have hfresh : kv.1 ∉ acc.map Prod.fst := by
      rw [List.map_append] at h
      intro hmem
      rcases List.nodup_append.mp h with ⟨_, _, hdis⟩
      exact hdis hmem (by simp)
    rw [objSet_append_of_fresh acc kv.1 kv.2 hfresh]
    have hre : (acc ++ [kv]) ++ rest = acc ++ kv :: rest := by simp
    have := ih (acc ++ [kv]) (by rw [hre]; exact h)
    rw [this, hre]

theorem objOfPairs_eq_self {α : Type} (l : List (String × α))
    (h : (l.map Prod.fst).Nodup) : Sheet.objOfPairs l = l := by
  unfold Sheet.objOfPairs
  simpa using objOfPairs_aux l [] (by simpa using h)

theorem mapOrThrow_eq_map {α β : Type} (g : α → Option β) (f : α → β) :
    ∀ l : List α, (∀ e ∈ l, g e = some (f e)) →
      Sheet.mapOrThrow g l = some (l.map f) := by
  intro l
  induction l with
  | nil => intro _; rfl
  | cons e rest ih =>
    intro h
    show (match g e, Sheet.mapOrThrow g rest with
      | some b, some bs => some (b :: bs)
      | _, _ => none) = _
    rw [h e (by simp), ih (fun x hx => h x (by simp [hx]))]
    rfl

/-- The per-entry action of `insertRowAt` on an entry whose key parses. -/
def insShift {α : Type} (k : Int) (e : String × α) : String × α :=
  match Sheet.parseCellId e.1 with
  | some p => if p.row ≥ k then (Sheet.getCellId (p.row + 1) p.col, e.2) else e
  | none => e

theorem insShift_canon {α : Type} (k : Int) (r c : Nat) (hc : c < 26) (v : α) :
    insShift k (Sheet.getCellId (r : Int) (c : Int), v) =
      if (r : Int) ≥ k then (Sheet.getCellId ((r : Int) + 1) (c : Int), v)
      else (Sheet.getCellId (r : Int) (c : Int), v) := by
  unfold insShift
  rw [sheet_parse_getCellId r c hc]

theorem insShift_snd {α : Type} (k : Int) (e : String × α) : (insShift k e).2 = e.2 := by
  unfold insShift
  cases Sheet.parseCellId e.1 with
  | none => rfl
  | some p =>
    dsimp only
    split <;> rfl

theorem insertRowAt_eq_map {α : Type} (k : Int) (cells : List (String × α))
    (hkeys : ∀ p ∈ cells, ∃ r c : Nat, c < 26 ∧ p.1 = Sheet.getCellId (r : Int) (c : Int))
    (hndm : ((cells.map (insShift k)).map Prod.fst).Nodup) :
    Sheet.insertRowAt k cells = some (cells.map (insShift k)) := by
  unfold Sheet.insertRowAt
  rw [mapOrThrow_eq_map _ (insShift k) cells ?hall]
  case hall =>
    intro e he
    obtain ⟨r, c, hc, hkey⟩ := hkeys e he
    obtain ⟨key, v⟩ := e
    simp only at hkey
    subst hkey
    rw [sheet_parse_getCellId r c hc, insShift_canon k r c hc v]
    rfl
  show some _ = some _
  rw [objOfPairs_eq_self _ hndm]

theorem nodup_keys_map_insShift {α : Type} (k : Int) (cells : List (String × α))
    (hkeys : ∀ p ∈ cells, ∃ r c : Nat, c < 26 ∧ p.1 = Sheet.getCellId (r : Int) (c : Int))
    (hnd : (cells.map Prod.fst).Nodup) :
    ((cells.map (insShift k)).map Prod.fst).Nodup := by
  rw [List.map_map]
  apply List.Nodup.map_on ?inj (List.Nodup.of_map _ hnd)
  case inj =>
    intro x hx y hy hxy
    obtain ⟨rx, cx, hcx, hkx⟩ := hkeys x hx
    obtain ⟨ry, cy, hcy, hky⟩ := hkeys y hy
    have hfx : (Prod.fst ∘ insShift k) x =
        if (rx : Int) ≥ k then Sheet.getCellId ((rx : Int) + 1) (cx : Int)
        else Sheet.getCellId (rx : Int) (cx : Int) := by
      obtain ⟨keyx, vx⟩ := x
      simp only at hkx
      subst hkx
      simp only [Function.comp_apply]
      rw [insShift_canon k rx cx hcx vx]
      split <;> rfl
    have hfy : (Prod.fst ∘ insShift k) y =
        if (ry : Int) ≥ k then Sheet.getCellId ((ry : Int) + 1) (cy : Int)
        else Sheet.getCellId (ry : Int) (cy : Int) := by
      obtain ⟨keyy, vy⟩ := y
      simp only at hky
      subst hky
      simp only [Function.comp_apply]
      rw [insShift_canon k ry cy hcy vy]
      split <;> rfl
    rw [hfx, hfy] at hxy
    have hcastx : ((rx : Int) + 1) = ((rx + 1 : Nat) : Int) := by push_cast; ring
    have hcasty : ((ry : Int) + 1) = ((ry + 1 : Nat) : Int) := by push_cast; ring
    have hco : rx = ry ∧ cx = cy := by
      by_cases h1 : (rx : Int) ≥ k <;> by_cases h2 : (ry : Int) ≥ k
      · rw [if_pos h1, if_pos h2, hcastx, hcasty] at hxy
        have := sheet_getCellId_inj hcx hcy hxy
        omega
      · rw [if_pos h1, if_neg h2, hcastx] at hxy
        have := sheet_getCellId_inj hcx hcy hxy
        omega
      · rw [if_neg h1, if_pos h2, hcasty] at hxy
        have := sheet_getCellId_inj hcx hcy hxy
        omega
      · rw [if_neg h1, if_neg h2] at hxy
        have := sheet_getCellId_inj hcx hcy hxy
        omega
    have hkeq : x.1 = y.1 := by rw [hkx, hky, hco.1, hco.2]
    exact List.inj_on_of_nodup_map hnd hx hy hkeq

theorem lookup_insShift_lt {α : Type} (k : Int) (r c : Nat) (hc : c < 26) (hr : (r : Int) < k) :
    ∀ cells : List (String × α),
      (∀ p ∈ cells, ∃ r' c' : Nat, c' < 26 ∧ p.1 = Sheet.getCellId (r' : Int) (c' : Int)) →
      (cells.map (insShift k)).lookup (Sheet.getCellId (r : Int) (c : Int)) =
        cells.lookup (Sheet.getCellId (r : Int) (c : Int)) := by
  intro cells
  induction cells with
  | nil => intro _; rfl
  | cons e rest ih =>
    intro hkeys
    obtain ⟨r0, c0, hc0, hk0⟩ := hkeys e (by simp)
    obtain ⟨key, v⟩ := e
    simp only at hk0
    subst hk0
    rw [List.map_cons, insShift_canon k r0 c0 hc0 v]
    have ihr := ih (fun p hp => hkeys p (by simp [hp]))
    by_cases hge : (r0 : Int) ≥ k
    · rw [if_pos hge]
      have hcast : ((r0 : Int) + 1) = ((r0 + 1 : Nat) : Int) := by push_cast; ring
      have hne1 : (Sheet.getCellId (r : Int) (c : Int) ==
          Sheet.getCellId ((r0 : Int) + 1) (c0 : Int)) = false := by
        rw [hcast, beq_eq_false_iff_ne]
        intro heq
        have := sheet_getCellId_inj hc hc0 heq
        omega
      have hne2 : (Sheet.getCellId (r : Int) (c : Int) ==
          Sheet.getCellId (r0 : Int) (c0 : Int)) = false := by
        rw [beq_eq_false_iff_ne]
        intro heq
        have := sheet_getCellId_inj hc hc0 heq
        omega
      simp only [List.lookup, hne1, hne2]
      exact ihr
    · rw [if_neg hge]
      cases hbeq : (Sheet.getCellId (r : Int) (c : Int) ==
          Sheet.getCellId (r0 : Int) (c0 : Int)) with
      | true => simp only [List.lookup, hbeq]
      | false =>
        simp only [List.lookup, hbeq]
        exact ihr

theorem lookup_insShift_ge {α : Type} (k : Int) (r c : Nat) (hc : c < 26) (hr : k ≤ (r : Int)) :
    ∀ cells : List (String × α),
      (∀ p ∈ cells, ∃ r' c' : Nat, c' < 26 ∧ p.1 = Sheet.getCellId (r' : Int) (c' : Int)) →
      (cells.map (insShift k)).lookup (Sheet.getCellId ((r : Int) + 1) (c : Int)) =
        cells.lookup (Sheet.getCellId (r : Int) (c : Int)) := by
  intro cells
  induction cells with
  | nil => intro _; rfl
  | cons e rest ih =>
    intro hkeys
    obtain ⟨r0, c0, hc0, hk0⟩ := hkeys e (by simp)
    obtain ⟨key, v⟩ := e
    simp only at hk0
    subst hk0
    rw [List.map_cons, insShift_canon k r0 c0 hc0 v]
    have ihr := ih (fun p hp => hkeys p (by simp [hp]))
    have hcastr : ((r : Int) + 1) = ((r + 1 : Nat) : Int) := by push_cast; ring
    by_cases hge : (r0 : Int) ≥ k
    · rw [if_pos hge]
      have hcast0 : ((r0 : Int) + 1) = ((r0 + 1 : Nat) : Int) := by push_cast; ring
      cases hbeq : (Sheet.getCellId (r : Int) (c : Int) ==
          Sheet.getCellId (r0 : Int) (c0 : Int)) with
      | true =>
        have heq := beq_iff_eq.mp hbeq
        have hco := sheet_getCellId_inj hc hc0 heq
        have hbeq1 : (Sheet.getCellId ((r : Int) + 1) (c : Int) ==
            Sheet.getCellId ((r0 : Int) + 1) (c0 : Int)) = true := by
          rw [beq_iff_eq, hco.1, hco.2]
        simp only [List.lookup, hbeq, hbeq1]
      | false =>
        have hbeq1 : (Sheet.getCellId ((r : Int) + 1) (c : Int) ==
            Sheet.getCellId ((r0 : Int) + 1) (c0 : Int)) = false := by
          rw [hcastr, hcast0, beq_eq_false_iff_ne]
          intro heq
          have hco := sheet_getCellId_inj hc hc0 heq
          rw [beq_eq_false_iff_ne] at hbeq
          exact hbeq (by rw [show r = r0 by omega, show c = c0 from hco.2])
        simp only [List.lookup, hbeq, hbeq1]
        exact ihr
    · rw [if_neg hge]
      have hne1 : (Sheet.getCellId ((r : Int) + 1) (c : Int) ==
          Sheet.getCellId (r0 : Int) (c0 : Int)) = false := by
        rw [hcastr, beq_eq_false_iff_ne]
        intro heq
        have := sheet_getCellId_inj hc hc0 heq
        omega
      have hne2 : (Sheet.getCellId (r : Int) (c : Int) ==
          Sheet.getCellId (r0 : Int) (c0 : Int)) = false := by
        rw [beq_eq_false_iff_ne]
        intro heq
        have := sheet_getCellId_inj hc hc0 heq
        omega
      simp only [List.lookup, hne1, hne2]
      exact ihr

/-- C4: under canonical in-bounds keys with no duplicates, `insertRowAt k`
succeeds, keeps the stored cell data exactly (same list of values, in order:
nothing lost or duplicated), keeps keys duplicate-free, leaves every cell with
row `< k` in place and moves every cell with row `≥ k` down by exactly one
row. -/
theorem C4_insert_row_bijective {α : Type} (k : Int) (cells : List (String × α))
    (hkeys : ∀ p ∈ cells, ∃ r c : Nat, c < 26 ∧ p.1 = Sheet.getCellId (r : Int) (c : Int))
    (hnd : (cells.map Prod.fst).Nodup) :
    ∃ m', Sheet.insertRowAt k cells = some m' ∧
      m'.map Prod.snd = cells.map Prod.snd ∧
      (m'.map Prod.fst).Nodup ∧
      ∀ (r c : Nat), c < 26 →
        ((r : Int) < k → m'.lookup (Sheet.getCellId (r : Int) (c : Int)) =
          cells.lookup (Sheet.getCellId (r : Int) (c : Int))) ∧
        (k ≤ (r : Int) → m'.lookup (Sheet.getCellId ((r : Int) + 1) (c : Int)) =
          cells.lookup (Sheet.getCellId (r : Int) (c : Int))) := by
  have hndm := nodup_keys_map_insShift k cells hkeys hnd
  refine ⟨cells.map (insShift k), insertRowAt_eq_map k cells hkeys hndm, ?_, hndm, ?_⟩
  · rw [List.map_map]
    apply List.map_congr_left
    intro e _
    exact insShift_snd k e
  · intro r c hc
    exact ⟨fun hr => lookup_insShift_lt k r c hc hr cells hkeys,
           fun hr => lookup_insShift_ge k r c hc hr cells hkeys⟩

/-- Witness for C4 at a concrete two-cell map and `k = 1`. -/
theorem C4_witness :
    ∃ m', Sheet.insertRowAt 1 [("A1", (10 : Nat)), ("B2", 20)] = some m' ∧
      m'.map Prod.snd = [("A1", (10 : Nat)), ("B2", 20)].map Prod.snd ∧
      (m'.map Prod.fst).Nodup ∧
      ∀ (r c : Nat), c < 26 →
        (((r : Int)) < 1 → m'.lookup (Sheet.getCellId (r : Int) (c : Int)) =
          [("A1", (10 : Nat)), ("B2", 20)].lookup (Sheet.getCellId (r : Int) (c : Int))) ∧
        ((1 : Int) ≤ (r : Int) → m'.lookup (Sheet.getCellId ((r : Int) + 1) (c : Int)) =
          [("A1", (10 : Nat)), ("B2", 20)].lookup (Sheet.getCellId (r : Int) (c : Int))) := by
  apply C4_insert_row_bijective 1 [("A1", (10 : Nat)), ("B2", 20)]
  · intro p hp
    rcases List.mem_cons.mp hp with rfl | hp2
    · exact ⟨0, 0, by omega, by decide⟩
    rcases List.mem_cons.mp hp2 with rfl | hp3
    · exact ⟨1, 1, by omega, by decide⟩
    · exact absurd hp3 (by simp)
  · decide

/-- Whether `deleteRowAt k` keeps an entry (its parsed row differs from `k`). -/
def delKeep {α : Type} (k : Int) (e : String × α) : Bool :=
  match Sheet.parseCellId e.1 with
  | some p => !(p.row == k)
  | none => false

/-- The per-entry action of `deleteRowAt` on a kept entry. -/
def delShift {α : Type} (k : Int) (e : String × α) : String × α :=
  match Sheet.parseCellId e.1 with
  | some p => if p.row > k then (Sheet.getCellId (p.row - 1) p.col, e.2) else e
  | none => e

theorem delKeep_canon {α : Type} (k : Int) (r c : Nat) (hc : c < 26) (v : α) :
    delKeep k (Sheet.getCellId (r : Int) (c : Int), v) = !((r : Int) == k) := by
  unfold delKeep
  rw [sheet_parse_getCellId r c hc]

theorem delShift_canon {α : Type} (k : Int) (r c : Nat) (hc : c < 26) (v : α) :
    delShift k (Sheet.getCellId (r : Int) (c : Int), v) =
      if (r : Int) > k then (Sheet.getCellId ((r : Int) - 1) (c : Int), v)
      else (Sheet.getCellId (r : Int) (c : Int), v) := by
  unfold delShift
  rw [sheet_parse_getCellId r c hc]

theorem delShift_snd {α : Type} (k : Int) (e : String × α) : (delShift k e).2 = e.2 := by
  unfold delShift
  cases Sheet.parseCellId e.1 with
  | none => rfl
  | some p =>
    dsimp only
    split <;> rfl

/-- The parsed-position pairing of `deleteRowAt` on an entry whose key parses
(the fallback value is never used under the canonical-key hypothesis). -/
def pairUp {α : Type} (e : String × α) : Formulas.CellPos × (String × α) :=
  match Sheet.parseCellId e.1 with
  | some p => (p, e)
  | none => (⟨0, 0⟩, e)

theorem filterMap_pairUp {α : Type} (k : Int) :
    ∀ cells : List (String × α),
      (∀ p ∈ cells, ∃ r c : Nat, c < 26 ∧ p.1 = Sheet.getCellId (r : Int) (c : Int)) →
      ((cells.map pairUp).filterMap (fun pe =>
        if pe.1.row = k then none
        else if pe.1.row > k then some (Sheet.getCellId (pe.1.row - 1) pe.1.col, pe.2.2)
        else some pe.2)) = (cells.filter (delKeep k)).map (delShift k) := by
  intro cells
  induction cells with
  | nil => intro _; rfl
  | cons e rest ih =>
    intro hkeys
    obtain ⟨r0, c0, hc0, hk0⟩ := hkeys e (by simp)
    obtain ⟨key, v⟩ := e
    simp only at hk0
    subst hk0
    have ihr := ih (fun p hp => hkeys p (by simp [hp]))
    have hpair : pairUp ((Sheet.getCellId (r0 : Int) (c0 : Int), v)) =
        (⟨(c0 : Int), (r0 : Int)⟩, (Sheet.getCellId (r0 : Int) (c0 : Int), v)) := by
      unfold pairUp
      rw [sheet_parse_getCellId r0 c0 hc0]
    rw [List.map_cons, hpair, List.filterMap_cons]
    by_cases hk : (r0 : Int) = k
    · rw [List.filter_cons_of_neg]
      · simp only [hk, if_pos rfl]
        exact ihr
      · rw [delKeep_canon k r0 c0 hc0 v]
        simp [hk]
    · rw [List.filter_cons_of_pos]
      · simp only [if_neg hk]
        rw [List.map_cons, delShift_canon k r0 c0 hc0 v]
        by_cases hgt : (r0 : Int) > k
        · rw [if_pos hgt, if_pos hgt, ihr]
        · rw [if_neg hgt, if_neg hgt, ihr]
      · rw [delKeep_canon k r0 c0 hc0 v]
        simp [hk]

theorem nodup_keys_map_delShift {α : Type} (k : Nat) (cells : List (String × α))
    (hkeys : ∀ p ∈ cells, ∃ r c : Nat, c < 26 ∧ p.1 = Sheet.getCellId (r : Int) (c : Int))
    (hnd : (cells.map Prod.fst).Nodup) :
    (((cells.filter (delKeep (k : Int))).map (delShift (k : Int))).map Prod.fst).Nodup := by
  have hkeysf : ∀ p ∈ cells.filter (delKeep (k : Int)),
      ∃ r c : Nat, c < 26 ∧ p.1 = Sheet.getCellId (r : Int) (c : Int) :=
    fun p hp => hkeys p (List.mem_of_mem_filter hp)
  have hndf : ((cells.filter (delKeep (k : Int))).map Prod.fst).Nodup :=
    nodup_keys_filter _ cells hnd
  rw [List.map_map]
  apply List.Nodup.map_on ?inj (List.Nodup.of_map _ hndf)
  case inj =>
    intro x hx y hy hxy
    obtain ⟨rx, cx, hcx, hkx⟩ := hkeysf x hx
    obtain ⟨ry, cy, hcy, hky⟩ := hkeysf y hy
    obtain ⟨keyx, vx⟩ := x
    obtain ⟨keyy, vy⟩ := y
    simp only at hkx hky
    subst hkx
    subst hky
    have hrx : (rx : Int) ≠ (k : Int) := by
      have hkeep := List.of_mem_filter hx
      rw [delKeep_canon (k : Int) rx cx hcx vx] at hkeep
      simpa using hkeep
    have hry : (ry : Int) ≠ (k : Int) := by
      have hkeep := List.of_mem_filter hy
      rw [delKeep_canon (k : Int) ry cy hcy vy] at hkeep
      simpa using hkeep
    have hfx : (Prod.fst ∘ delShift (k : Int)) (Sheet.getCellId (rx : Int) (cx : Int), vx) =
        if (rx : Int) > (k : Int) then Sheet.getCellId ((rx : Int) - 1) (cx : Int)
        else Sheet.getCellId (rx : Int) (cx : Int) := by
      simp only [Function.comp_apply]
      rw [delShift_canon (k : Int) rx cx hcx vx]
      split <;> rfl
    have hfy : (Prod.fst ∘ delShift (k : Int)) (Sheet.getCellId (ry : Int) (cy : Int), vy) =
        if (ry : Int) > (k : Int) then Sheet.getCellId ((ry : Int) - 1) (cy : Int)
        else Sheet.getCellId (ry : Int) (cy : Int) := by
      simp only [Function.comp_apply]
      rw [delShift_canon (k : Int) ry cy hcy vy]
      split <;> rfl
    rw [hfx, hfy] at hxy
    have hco : rx = ry ∧ cx = cy := by
      by_cases h1 : (rx : Int) > (k : Int) <;> by_cases h2 : (ry : Int) > (k : Int)
      · rw [if_pos h1, if_pos h2, show ((rx : Int) - 1) = ((rx - 1 : Nat) : Int) by omega,
          show ((ry : Int) - 1) = ((ry - 1 : Nat) : Int) by omega] at hxy
        have := sheet_getCellId_inj hcx hcy hxy
        omega
      · rw [if_pos h1, if_neg h2, show ((rx : Int) - 1) = ((rx - 1 : Nat) : Int) by omega] at hxy
        have := sheet_getCellId_inj hcx hcy hxy
        omega
      · rw [if_neg h1, if_pos h2, show ((ry : Int) - 1) = ((ry - 1 : Nat) : Int) by omega] at hxy
        have := sheet_getCellId_inj hcx hcy hxy
        omega
      · rw [if_neg h1, if_neg h2] at hxy
        have := sheet_getCellId_inj hcx hcy hxy
        omega
    exact List.inj_on_of_nodup_map hndf hx hy (by simp only; rw [hco.1, hco.2])

theorem deleteRowAt_eq_map {α : Type} (k : Nat) (cells : List (String × α))
    (hkeys : ∀ p ∈ cells, ∃ r c : Nat, c < 26 ∧ p.1 = Sheet.getCellId (r : Int) (c : Int))
    (hnd : (cells.map Prod.fst).Nodup) :
    Sheet.deleteRowAt (k : Int) cells =
      some ((cells.filter (delKeep (k : Int))).map (delShift (k : Int))) := by
  unfold Sheet.deleteRowAt
  rw [mapOrThrow_eq_map _ pairUp cells ?hall]
  case hall =>
    intro e he
    obtain ⟨r, c, hc, hkey⟩ := hkeys e he
    obtain ⟨key, v⟩ := e
    simp only at hkey
    subst hkey
    rw [sheet_parse_getCellId r c hc]
    unfold pairUp
    rw [sheet_parse_getCellId r c hc]
    rfl
  show some _ = some _
  dsimp only
  rw [filterMap_pairUp (k : Int) cells hkeys,
    objOfPairs_eq_self _ (nodup_keys_map_delShift k cells hkeys hnd)]

theorem lookup_delShift_lt {α : Type} (k r c : Nat) (hc : c < 26) (hr : r < k) :
    ∀ cells : List (String × α),
      (∀ p ∈ cells, ∃ r' c' : Nat, c' < 26 ∧ p.1 = Sheet.getCellId (r' : Int) (c' : Int)) →
      ((cells.filter (delKeep (k : Int))).map (delShift (k : Int))).lookup
          (Sheet.getCellId (r : Int) (c : Int)) =
        cells.lookup (Sheet.getCellId (r : Int) (c : Int)) := by
  intro cells
  induction cells with
  | nil => intro _; rfl
  | cons e rest ih =>
    intro hkeys
    obtain ⟨r0, c0, hc0, hk0⟩ := hkeys e (by simp)
    obtain ⟨key, v⟩ := e
    simp only at hk0
    subst hk0
    have ihr := ih (fun p hp => hkeys p (by simp [hp]))
    by_cases hr0k : (r0 : Int) = (k : Int)
    · rw [List.filter_cons_of_neg (by rw [delKeep_canon (k : Int) r0 c0 hc0 v]; simp [hr0k])]
      have hne : (Sheet.getCellId (r : Int) (c : Int) ==
          Sheet.getCellId (r0 : Int) (c0 : Int)) = false := by
        rw [beq_eq_false_iff_ne]
        intro heq
        have := sheet_getCellId_inj hc hc0 heq
        omega
      simp only [List.lookup, hne]
      exact ihr
    · rw [List.filter_cons_of_pos (by rw [delKeep_canon (k : Int) r0 c0 hc0 v]; simp [hr0k])]
      rw [List.map_cons, delShift_canon (k : Int) r0 c0 hc0 v]
      by_cases hgt : (r0 : Int) > (k : Int)
      · rw [if_pos hgt]
        have hne1 : (Sheet.getCellId (r : Int) (c : Int) ==
            Sheet.getCellId ((r0 : Int) - 1) (c0 : Int)) = false := by
          rw [show ((r0 : Int) - 1) = ((r0 - 1 : Nat) : Int) by omega, beq_eq_false_iff_ne]
          intro heq
          have := sheet_getCellId_inj hc hc0 heq
          omega
        have hne2 : (Sheet.getCellId (r : Int) (c : Int) ==
            Sheet.getCellId (r0 : Int) (c0 : Int)) = false := by
          rw [beq_eq_false_iff_ne]
          intro heq
          have := sheet_getCellId_inj hc hc0 heq
          omega
        simp only [List.lookup, hne1, hne2]
        exact ihr
      · rw [if_neg hgt]
        cases hbeq : (Sheet.getCellId (r : Int) (c : Int) ==
            Sheet.getCellId (r0 : Int) (c0 : Int)) with
        | true => simp only [List.lookup, hbeq]
        | false =>
          simp only [List.lookup, hbeq]
          exact ihr

theorem lookup_delShift_gt {α : Type} (k r c : Nat) (hc : c < 26) (hr : k < r) :
    ∀ cells : List (String × α),
      (∀ p ∈ cells, ∃ r' c' : Nat, c' < 26 ∧ p.1 = Sheet.getCellId (r' : Int) (c' : Int)) →
      ((cells.filter (delKeep (k : Int))).map (delShift (k : Int))).lookup
          (Sheet.getCellId ((r : Int) - 1) (c : Int)) =
        cells.lookup (Sheet.getCellId (r : Int) (c : Int)) := by
  intro cells
  induction cells with
  | nil => intro _; rfl
  | cons e rest ih =>
    intro hkeys
    obtain ⟨r0, c0, hc0, hk0⟩ := hkeys e (by simp)
    obtain ⟨key, v⟩ := e
    simp only at hk0
    subst hk0
    have ihr := ih (fun p hp => hkeys p (by simp [hp]))
    have hcastr : ((r : Int) - 1) = ((r - 1 : Nat) : Int) := by omega
    by_cases hr0k : (r0 : Int) = (k : Int)
    · rw [List.filter_cons_of_neg (by rw [delKeep_canon (k : Int) r0 c0 hc0 v]; simp [hr0k])]
      have hne : (Sheet.getCellId (r : Int) (c : Int) ==
          Sheet.getCellId (r0 : Int) (c0 : Int)) = false := by
        rw [beq_eq_false_iff_ne]
        intro heq
        have := sheet_getCellId_inj hc hc0 heq
        omega
      simp only [List.lookup, hne]
      exact ihr
    · rw [List.filter_cons_of_pos (by rw [delKeep_canon (k : Int) r0 c0 hc0 v]; simp [hr0k])]
      rw [List.map_cons, delShift_canon (k : Int) r0 c0 hc0 v]
      by_cases hgt : (r0 : Int) > (k : Int)
      · rw [if_pos hgt]
        have hcast0 : ((r0 : Int) - 1) = ((r0 - 1 : Nat) : Int) := by omega
        cases hbeq : (Sheet.getCellId (r : Int) (c : Int) ==
            Sheet.getCellId (r0 : Int) (c0 : Int)) with
        | true =>
          have heq := beq_iff_eq.mp hbeq
          have hco := sheet_getCellId_inj hc hc0 heq
          have hbeq1 : (Sheet.getCellId ((r : Int) - 1) (c : Int) ==
              Sheet.getCellId ((r0 : Int) - 1) (c0 : Int)) = true := by
            rw [beq_iff_eq, hco.1, hco.2]
          simp only [List.lookup, hbeq, hbeq1]
        | false =>
          have hbeq1 : (Sheet.getCellId ((r : Int) - 1) (c : Int) ==
              Sheet.getCellId ((r0 : Int) - 1) (c0 : Int)) = false := by
            rw [hcastr, hcast0, beq_eq_false_iff_ne]
            intro heq
            have hco := sheet_getCellId_inj hc hc0 heq
            rw [beq_eq_false_iff_ne] at hbeq
            exact hbeq (by rw [show r = r0 by omega, show c = c0 from hco.2])
          simp only [List.lookup, hbeq, hbeq1]
          exact ihr
      · rw [if_neg hgt]
        have hne1 : (Sheet.getCellId ((r : Int) - 1) (c : Int) ==
            Sheet.getCellId (r0 : Int) (c0 : Int)) = false := by
          rw [hcastr, beq_eq_false_iff_ne]
          intro heq
          have := sheet_getCellId_inj hc hc0 heq
          omega
        have hne2 : (Sheet.getCellId (r : Int) (c : Int) ==
            Sheet.getCellId (r0 : Int) (c0 : Int)) = false := by
          rw [beq_eq_false_iff_ne]
          intro heq
          have := sheet_getCellId_inj hc hc0 heq
          omega
        simp only [List.lookup, hne1, hne2]
        exact ihr

/-- C5: under canonical in-bounds keys with no duplicates, `deleteRowAt k`
succeeds, drops exactly the cells at parsed row `k` (the surviving values are
those of the kept entries, in order), keeps keys duplicate-free, leaves every
cell with row `< k` in place and moves every cell with row `> k` up by exactly
one row. -/
theorem C5_delete_row_shifts (k : Nat) {α : Type} (cells : List (String × α))
    (hkeys : ∀ p ∈ cells, ∃ r c : Nat, c < 26 ∧ p.1 = Sheet.getCellId (r : Int) (c : Int))
    (hnd : (cells.map Prod.fst).Nodup) :
    ∃ m', Sheet.deleteRowAt (k : Int) cells = some m' ∧
      m'.map Prod.snd = (cells.filter (delKeep (k : Int))).map Prod.snd ∧
      (m'.map Prod.fst).Nodup ∧
      ∀ (r c : Nat), c < 26 →
        (r < k → m'.lookup (Sheet.getCellId (r : Int) (c : Int)) =
          cells.lookup (Sheet.getCellId (r : Int) (c : Int))) ∧
        (k < r → m'.lookup (Sheet.getCellId ((r : Int) - 1) (c : Int)) =
          cells.lookup (Sheet.getCellId (r : Int) (c : Int))) := by
  refine ⟨(cells.filter (delKeep (k : Int))).map (delShift (k : Int)),
    deleteRowAt_eq_map k cells hkeys hnd, ?_, nodup_keys_map_delShift k cells hkeys hnd, ?_⟩
  · rw [List.map_map]
    apply List.map_congr_left
    intro e _
    exact delShift_snd (k : Int) e
  · intro r c hc
    exact ⟨fun hr => lookup_delShift_lt k r c hc hr cells hkeys,
           fun hr => lookup_delShift_gt k r c hc hr cells hkeys⟩

/-- Witness for C5 at a concrete three-cell map and `k = 1`. -/
theorem C5_witness :
    ∃ m', Sheet.deleteRowAt ((1 : Nat) : Int) [("A1", (10 : Nat)), ("A2", 20), ("B3", 30)] =
        some m' ∧
      m'.map Prod.snd =
        ([("A1", (10 : Nat)), ("A2", 20), ("B3", 30)].filter
          (delKeep ((1 : Nat) : Int))).map Prod.snd ∧
      (m'.map Prod.fst).Nodup ∧
      ∀ (r c : Nat), c < 26 →
        (r < 1 → m'.lookup (Sheet.getCellId (r : Int) (c : Int)) =
          [("A1", (10 : Nat)), ("A2", 20), ("B3", 30)].lookup
            (Sheet.getCellId (r : Int) (c : Int))) ∧
        (1 < r → m'.lookup (Sheet.getCellId ((r : Int) - 1) (c : Int)) =
          [("A1", (10 : Nat)), ("A2", 20), ("B3", 30)].lookup
            (Sheet.getCellId (r : Int) (c : Int))) := by
  apply C5_delete_row_shifts 1 [("A1", (10 : Nat)), ("A2", 20), ("B3", 30)]
  · intro p hp
    rcases List.mem_cons.mp hp with rfl | hp2
    · exact ⟨0, 0, by omega, by decide⟩
    rcases List.mem_cons.mp hp2 with rfl | hp3
    · exact ⟨1, 0, by omega, by decide⟩
    rcases List.mem_cons.mp hp3 with rfl | hp4
    · exact ⟨2, 1, by omega, by decide⟩
    · exact absurd hp4 (by simp)
  · decide

theorem flatMap_congr {a b : Type} (l : List a) (f g : a → List b)
    (h : ∀ x ∈ l, f x = g x) : l.flatMap f = l.flatMap g := by
  induction l with
  | nil => rfl
  | cons x rest ih =>
    simp only [List.flatMap_cons]
    rw [h x (by simp), ih (fun y hy => h y (by simp [hy]))]

theorem filterMap_congr {a b : Type} (l : List a) (f g : a → Option b)
    (h : ∀ x ∈ l, f x = g x) : l.filterMap f = l.filterMap g := by
  induction l with
  | nil => rfl
  | cons x rest ih =>
    simp only [List.filterMap_cons]
    rw [h x (by simp), ih (fun y hy => h y (by simp [hy]))]

/-- The values of the `number`-typed cells of a rectangle (what the spec calls
"the numeric cells" of a range). -/
def numericRangeValues (rg : Formulas.CellPos × Formulas.CellPos)
    (d : Formulas.SheetData) : List JsNum :=
  (Formulas.intRange (min rg.1.row rg.2.row) (max rg.1.row rg.2.row)).flatMap fun row =>
    (Formulas.intRange (min rg.1.col rg.2.col) (max rg.1.col rg.2.col)).filterMap fun col =>
      match Formulas.lookupCell d (Formulas.getCellId row col) with
      | none => none
      | some cd => if cd.data_type = "number" then some (parseFloatJs cd.value) else none

/-- The C2 counterexample document: one `text` cell whose value parses as a
number, and one `number` cell. -/
def d2 : Formulas.SheetData := ⟨[("A1", ⟨"42", "text"⟩), ("A2", ⟨"1", "number"⟩)]⟩

/-- The C2 side condition on one coordinate: the cell is absent, numeric, or
text whose value does not `parseFloat`. -/
def sumCellOk (d : Formulas.SheetData) (row col : Int) : Bool :=
  match Formulas.lookupCell d (Formulas.getCellId row col) with
  | none => true
  | some cd =>
    cd.data_type == "number" ||
      (cd.data_type == "text" && decide (parseFloatJs cd.value = JsNum.nan))

/-- C2 counterexample: `=SUM` over a range with one text cell (value `"42"`)
and one numeric cell (value `"1"`) returns 43, not the numeric-only sum 1: the
text cell is *not* ignored, because `getRangeValues` includes text cells whose
value `parseFloat`s to a number. -/
theorem C2_counterexample :
    Formulas.evaluateFormula dp0 "=SUM(A1:A2)" d2 = some (JsNum.num 43) ∧
    Formulas.sumJs (numericRangeValues (⟨0, 0⟩, ⟨0, 1⟩) d2) = JsNum.num 1 ∧
    JsNum.num 43 ≠ JsNum.num 1 :=
  ⟨by decide, by decide, by decide⟩

/-- C2 amended: `=SUM` over a rectangle returns the sum of the numeric cells
provided every in-range cell is absent, `number`-typed, or `text`-typed with a
value that `parseFloat` cannot parse (`NaN`); a text cell is ignored only in
that last case. -/
theorem C2_sum_ignores_unparseable_text (dp : String → Option ℚ)
    (d : Formulas.SheetData) (f rs : String) (rg : Formulas.CellPos × Formulas.CellPos)
    (hp : Formulas.parseFormula f = some ("SUM", [rs]))
    (hrg : Formulas.parseCellRange rs = some rg)
    (hcells : ∀ row ∈ Formulas.intRange (min rg.1.row rg.2.row) (max rg.1.row rg.2.row),
      ∀ col ∈ Formulas.intRange (min rg.1.col rg.2.col) (max rg.1.col rg.2.col),
        sumCellOk d row col = true) :
    Formulas.evaluateFormula dp f d =
      some (Formulas.sumJs (numericRangeValues rg d)) := by
  rw [evalFormula_SUM dp f rs d hp]
  congr 1
  have hgr : Formulas.getRangeValues dp rs d = numericRangeValues rg d := by
    unfold Formulas.getRangeValues numericRangeValues
    rw [hrg]
    obtain ⟨s, e⟩ := rg
    apply flatMap_congr
    intro row hrow
    apply filterMap_congr
    intro col hcol
    have hcell := hcells row hrow col hcol
    unfold sumCellOk at hcell
    cases hlook : Formulas.lookupCell d (Formulas.getCellId row col) with
    | none => simp only [hlook]
    | some cd =>
      rw [hlook] at hcell
      simp only [Bool.or_eq_true, Bool.and_eq_true, beq_iff_eq,
        decide_eq_true_iff] at hcell
      simp only [hlook]
      rcases hcell with hnum | ⟨htext, hnan⟩
      · rw [hnum]
        simp
      · simp [htext, hnan]
  rw [hgr]

theorem C2_witness :
    Formulas.evaluateFormula dp0 "=SUM(A1:A3)"
      ⟨[("A1", ⟨"abc", "text"⟩), ("A2", ⟨"1", "number"⟩), ("A3", ⟨"2", "number"⟩)]⟩ =
      some (Formulas.sumJs (numericRangeValues (⟨0, 0⟩, ⟨0, 2⟩)
        ⟨[("A1", ⟨"abc", "text"⟩), ("A2", ⟨"1", "number"⟩), ("A3", ⟨"2", "number"⟩)]⟩)) :=
  C2_sum_ignores_unparseable_text dp0
    ⟨[("A1", ⟨"abc", "text"⟩), ("A2", ⟨"1", "number"⟩), ("A3", ⟨"2", "number"⟩)]⟩
    "=SUM(A1:A3)" "A1:A3" (⟨0, 0⟩, ⟨0, 2⟩) (by decide) (by decide) (by decide)

theorem dropWhile_eq_self_of_all (p : Char → Bool) (l : List Char)
    (h : ∀ c ∈ l, p c = false) : l.dropWhile p = l := by
  cases l with
  | nil => rfl
  | cons c rest => simp [List.dropWhile_cons, h c (by simp)]

theorem dropWhile_head_not (p : Char → Bool) :
    ∀ (l : List Char) c rest, l.dropWhile p = c :: rest → p c = false := by
  intro l
  induction l with
  | nil => intro c rest h; simp at h
  | cons a t ih =>
    intro c rest h
    by_cases ha : p a = true
    · rw [List.dropWhile_cons, if_pos ha] at h
      exact ih c rest h
    · rw [List.dropWhile_cons, if_neg ha] at h
      cases h
      simpa using ha

theorem dropWhile_getLast?_of_ne_nil (p : Char → Bool) :
    ∀ l : List Char, l.dropWhile p ≠ [] → (l.dropWhile p).getLast? = l.getLast? := by
  intro l
  induction l with
  | nil => intro h; simp at h
  | cons a t ih =>
    intro h
    by_cases ha : p a = true
    · rw [List.dropWhile_cons, if_pos ha] at h ⊢
      rw [ih h]
      cases ht : t with
      | nil =>
        subst ht
        simp at h
      | cons b u =>
        rw [List.getLast?_cons_cons]
    · rw [List.dropWhile_cons, if_neg ha]

theorem dropWhile_idem (p : Char → Bool) (l : List Char) :
    (l.dropWhile p).dropWhile p = l.dropWhile p := by
  cases h : l.dropWhile p with
  | nil => rfl
  | cons c rest =>
    rw [List.dropWhile_cons, if_neg (by rw [dropWhile_head_not p l c rest h]; simp)]

theorem jsTrimList_idem (l : List Char) : jsTrimList (jsTrimList l) = jsTrimList l := by
  unfold jsTrimList jsTrimR jsTrimL
  set w := (l.dropWhile jsWhitespace).reverse.dropWhile jsWhitespace with hw
  have hwidem : w.dropWhile jsWhitespace = w := by
    rw [hw]
    exact dropWhile_idem _ _
  have hL : w.reverse.dropWhile jsWhitespace = w.reverse := by
    cases hwr : w.reverse with
    | nil => rfl
    | cons c rest =>
      have hwne : w ≠ [] := by
        intro h0
        rw [h0] at hwr
        simp at hwr
      have hlast : w.getLast? = some c := by
        rw [← List.head?_reverse, hwr]
        rfl
      have hlast2 : ((l.dropWhile jsWhitespace).reverse).getLast? = some c := by
        rw [← dropWhile_getLast?_of_ne_nil jsWhitespace _ (by rw [← hw]; exact hwne), ← hw,
          hlast]
      have hhead : (l.dropWhile jsWhitespace).head? = some c := by
        rw [← List.getLast?_reverse]
        exact hlast2
      have hc : jsWhitespace c = false := by
        cases hd : l.dropWhile jsWhitespace with
        | nil => rw [hd] at hhead; simp at hhead
        | cons c0 rest0 =>
          rw [hd] at hhead
          simp only [List.head?_cons, Option.some.injEq] at hhead
          rw [← hhead]
          exact dropWhile_head_not jsWhitespace l c0 rest0 hd
      rw [List.dropWhile_cons, if_neg (by rw [hc]; simp)]
  rw [hL, List.reverse_reverse, hwidem]

theorem trim_eq_self_of_no_ws (l : List Char) (h : ∀ c ∈ l, jsWhitespace c = false) :
    jsTrimList l = l := by
  unfold jsTrimList jsTrimL jsTrimR
  rw [dropWhile_eq_self_of_all _ _ h,
    dropWhile_eq_self_of_all _ _ (fun c hc => h c (List.mem_reverse.mp hc)),
    List.reverse_reverse]

theorem string_eta (s : String) : (⟨s.data⟩ : String) = s := by
  obtain ⟨d⟩ := s
  rfl

theorem data_append (a b : String) : (a ++ b).data = a.data ++ b.data := by
  obtain ⟨x⟩ := a
  obtain ⟨y⟩ := b
  rfl

theorem detect_of_trimmed (s : String) :
    DataValidation.detectDataType ⟨jsTrimList s.data⟩ = DataValidation.detectDataType s := by
  unfold DataValidation.detectDataType
  dsimp only
  rw [jsTrimList_idem]

theorem ws_false_of_digitish {c : Char} (h1 : 45 ≤ c.toNat) (h2 : c.toNat ≤ 57) :
    jsWhitespace c = false := by
  rw [Bool.eq_false_iff]
  intro hws
  simp only [jsWhitespace, Bool.or_eq_true, Bool.and_eq_true, decide_eq_true_eq] at hws
  omega

theorem decValue_den (m : Nat) (e : Int) : ∃ j : ℕ, (decValue m e).den ∣ 10 ^ j := by
  unfold decValue
  split
  · refine ⟨0, ?_⟩
    have h := Rat.den_dvd ((m * 10 ^ e.toNat : ℕ) : Int) 1
    rw [pow_zero]
    exact_mod_cast h
  · refine ⟨(-e).toNat, ?_⟩
    have h := Rat.den_dvd (m : Int) ((10 ^ (-e).toNat : ℕ) : Int)
    exact_mod_cast h

theorem mkJsNum_num_den {neg : Bool} {mag : ℚ} {q : ℚ} (h : mkJsNum neg mag = JsNum.num q) :
    q.den = mag.den := by
  unfold mkJsNum at h
  split at h
  · cases neg <;> simp at h
  · injection h with h2
    rw [← h2]
    cases neg with
    | true => rw [if_pos rfl, qNeg_eq]; exact Rat.neg_den mag
    | false => rw [if_neg Bool.false_ne_true]

theorem parse_den_dvd {s : String} {q : ℚ} (h : parseFloatJs s = JsNum.num q) :
    ∃ j : ℕ, q.den ∣ 10 ^ j := by
  unfold parseFloatJs at h
  dsimp only at h
  rcases hps : parseSign (s.data.dropWhile jsWhitespace) with ⟨neg, l1⟩
  rw [hps] at h
  dsimp only at h
  split at h
  · cases neg <;> simp at h
  · cases hm : parseMantissa l1 with
    | none => rw [hm] at h; exact absurd h (fun hx => JsNum.noConfusion hx)
    | some v =>
      obtain ⟨i, f, flen, rest⟩ := v
      rw [hm] at h
      dsimp only at h
      rw [mkJsNum_num_den h]
      exact decValue_den _ _

theorem den_pow_mod {d j : ℕ} (hdvd : d ∣ 10 ^ j) : 10 ^ d % d = 0 := by
  have h10 : (10 : ℕ) ^ j = 2 ^ j * 5 ^ j := by rw [← Nat.mul_pow]
  rw [h10] at hdvd
  obtain ⟨y, z, hy, hz, hyz⟩ := Nat.dvd_mul.mp hdvd
  obtain ⟨a, _, rfl⟩ := (Nat.dvd_prime_pow Nat.prime_two).mp hy
  obtain ⟨b, _, rfl⟩ := (Nat.dvd_prime_pow (by norm_num : Nat.Prime 5)).mp hz
  have h2d : 2 ^ a ≤ d := by rw [← hyz]; exact Nat.le_mul_of_pos_right _ (by positivity)
  have h5d : 5 ^ b ≤ d := by rw [← hyz]; exact Nat.le_mul_of_pos_left _ (by positivity)
  have ha : a ≤ d := le_trans (Nat.le_of_lt (Nat.lt_two_pow a)) h2d
  have hb : b ≤ d := le_trans (Nat.le_of_lt (Nat.lt_pow_self (by norm_num) b)) h5d
  apply Nat.mod_eq_zero_of_dvd
  have h10d : (10 : ℕ) ^ d = 2 ^ d * 5 ^ d := by rw [← Nat.mul_pow]
  rw [h10d]
  exact dvd_trans (dvd_of_eq hyz.symm)
    (mul_dvd_mul (pow_dvd_pow 2 ha) (pow_dvd_pow 5 hb))

theorem mem_stripZeros {c : Char} {l : List Char} (h : c ∈ DataValidation.stripZeros l) :
    c ∈ l := by
  unfold DataValidation.stripZeros at h
  rw [List.mem_reverse] at h
  rw [← List.mem_reverse]
  exact (List.dropWhile_sublist _).mem h

theorem mem_padDigits {c : Char} {k : Nat} {l : List Char}
    (h : c ∈ DataValidation.padDigits k l) : c = '0' ∨ c ∈ l := by
  unfold DataValidation.padDigits at h
  rcases List.mem_append.mp h with h0 | hm
  · exact Or.inl (List.eq_of_mem_replicate h0)
  · exact Or.inr hm

theorem frac_digits (k fp : Nat) :
    ∀ c ∈ DataValidation.stripZeros (DataValidation.padDigits k (natDigits fp)),
      isDigit09 c = true := by
  intro c hc
  rcases mem_padDigits (mem_stripZeros hc) with h0 | hm
  · rw [h0]; decide
  · exact natDigits_all_digit fp c hm

theorem canon_range (sgn : Bool) (ip : Nat) (tail : List Char)
    (htail : ∀ c ∈ tail, 45 ≤ c.toNat ∧ c.toNat ≤ 57) :
    ∀ c ∈ (if sgn then ['-'] else []) ++ natDigits ip ++ tail,
      45 ≤ c.toNat ∧ c.toNat ≤ 57 := by
  intro c hc
  rcases List.mem_append.mp hc with hl | ht
  · rcases List.mem_append.mp hl with hs | hd
    · cases sgn with
      | true =>
        rw [if_pos rfl] at hs
        rcases List.mem_singleton.mp hs with rfl
        decide
      | false => rw [if_neg Bool.false_ne_true] at hs; simp at hs
    · have := (isDigit09_iff c).mp (natDigits_all_digit ip c hd)
      omega
  · exact htail c ht


theorem mkJsNum_ne_nan (neg : Bool) (mag : ℚ) : mkJsNum neg mag ≠ JsNum.nan := by
  unfold mkJsNum
  split
  · cases neg <;> simp
  · exact fun h => JsNum.noConfusion h

theorem parseSign_not_sign {c : Char} (h1 : c ≠ '-') (h2 : c ≠ '+') (r : List Char) :
    parseSign (c :: r) = (false, c :: r) := by
  unfold parseSign
  split <;> simp_all

theorem parseSign_neg (r : List Char) : parseSign ('-' :: r) = (true, r) := by
  rfl

theorem litStarts_inf_digit {c : Char} (hc : isDigit09 c = true) (cs : List Char) :
    litStarts "Infinity".data (c :: cs) = false := by
  have hne : ¬('I' = c) := by
    intro h
    rw [← h] at hc
    exact absurd hc (by decide)
  show (decide ('I' = c) && litStarts "nfinity".data cs) = false
  rw [decide_eq_false hne, Bool.false_and]

theorem parseMantissa_isSome {c : Char} (hc : isDigit09 c = true) (rest : List Char) :
    parseMantissa (c :: rest) ≠ none := by
  unfold parseMantissa
  dsimp only
  rw [List.takeWhile_cons, if_pos hc]
  split
  · rw [if_neg (by simp)]
    exact fun h => Option.noConfusion h
  · rw [if_neg (by simp)]
    exact fun h => Option.noConfusion h

theorem parseFloat_ne_nan_canon (sgn : Bool) (ip : Nat) (tail : List Char)
    (hws : ∀ c ∈ (if sgn then ['-'] else []) ++ natDigits ip ++ tail,
      jsWhitespace c = false) :
    parseFloatJs ⟨(if sgn then ['-'] else []) ++ natDigits ip ++ tail⟩ ≠ JsNum.nan := by
  obtain ⟨d0, ds, hnd⟩ : ∃ d0 ds, natDigits ip = d0 :: ds := by
    cases h : natDigits ip with
    | nil => exact absurd h (natDigits_ne_nil ip)
    | cons a b => exact ⟨a, b, rfl⟩
  have hd0 : isDigit09 d0 = true := natDigits_all_digit ip d0 (by rw [hnd]; simp)
  unfold parseFloatJs
  dsimp only
  rw [dropWhile_eq_self_of_all _ _ hws]
  cases sgn with
  | true =>
    rw [if_pos rfl, List.singleton_append, List.cons_append, parseSign_neg]
    dsimp only
    rw [hnd, List.cons_append, litStarts_inf_digit hd0, if_neg Bool.false_ne_true]
    cases hm : parseMantissa (d0 :: (ds ++ tail)) with
    | none => exact absurd hm (parseMantissa_isSome hd0 _)
    | some v =>
      obtain ⟨i, f, flen, rest⟩ := v
      dsimp only
      exact mkJsNum_ne_nan _ _
  | false =>
    have h1 : d0 ≠ '-' := by
      intro h
      rw [h] at hd0
      exact absurd hd0 (by decide)
    have h2 : d0 ≠ '+' := by
      intro h
      rw [h] at hd0
      exact absurd hd0 (by decide)
    rw [if_neg Bool.false_ne_true, List.nil_append, hnd, List.cons_append,
      parseSign_not_sign h1 h2]
    dsimp only
    rw [litStarts_inf_digit hd0, if_neg Bool.false_ne_true]
    cases hm : parseMantissa (d0 :: (ds ++ tail)) with
    | none => exact absurd hm (parseMantissa_isSome hd0 _)
    | some v =>
      obtain ⟨i, f, flen, rest⟩ := v
      dsimp only
      exact mkJsNum_ne_nan _ _

theorem numberShape_digits_frac (sgn : Bool) (ip : Nat) (frac : List Char)
    (hfr : ∀ c ∈ frac, isDigit09 c = true) :
    numberShape ((if sgn then ['-'] else []) ++ natDigits ip ++ ('.' :: frac)) = true := by
  obtain ⟨d0, ds, hnd⟩ : ∃ d0 ds, natDigits ip = d0 :: ds := by
    cases h : natDigits ip with
    | nil => exact absurd h (natDigits_ne_nil ip)
    | cons a b => exact ⟨a, b, rfl⟩
  have hd0 : isDigit09 d0 = true := natDigits_all_digit ip d0 (by rw [hnd]; simp)
  have hI : ((natDigits ip ++ ('.' :: frac)) : List Char).takeWhile isDigit09
      = natDigits ip := by
    rw [takeWhile_append_all _ _ _ (natDigits_all_digit ip),
      takeWhile_nil_of_head _ _ _ (by decide), List.append_nil]
  cases sgn with
  | false =>
    rw [if_neg Bool.false_ne_true, List.nil_append]
    have hm1 : (match (natDigits ip ++ '.' :: frac : List Char) with
        | '-' :: r => r
        | x => natDigits ip ++ '.' :: frac) = natDigits ip ++ '.' :: frac := by
      rw [hnd, List.cons_append]
      split
      · next r heq =>
        injection heq with he1 he2
        rw [he1] at hd0
        exact absurd hd0 (by decide)
      · rfl
    unfold numberShape
    dsimp only
    rw [hm1, hI, isEmpty_false_of_ne_nil (natDigits_ne_nil ip), if_neg Bool.false_ne_true,
      List.drop_left]
    show expTailOk (List.drop (List.takeWhile isDigit09 frac).length frac) = true
    rw [takeWhile_all _ _ hfr, List.drop_length]
    rfl
  | true =>
    rw [if_pos rfl, List.singleton_append, List.cons_append]
    have hm1 : (match ('-' :: (natDigits ip ++ '.' :: frac) : List Char) with
        | '-' :: r => r
        | x => '-' :: (natDigits ip ++ '.' :: frac)) = natDigits ip ++ '.' :: frac := rfl
    unfold numberShape
    dsimp only
    rw [hm1, hI, isEmpty_false_of_ne_nil (natDigits_ne_nil ip), if_neg Bool.false_ne_true,
      List.drop_left]
    show expTailOk (List.drop (List.takeWhile isDigit09 frac).length frac) = true
    rw [takeWhile_all _ _ hfr, List.drop_length]
    rfl

theorem numberShape_digits (sgn : Bool) (ip : Nat) :
    numberShape ((if sgn then ['-'] else []) ++ natDigits ip) = true := by
  obtain ⟨d0, ds, hnd⟩ : ∃ d0 ds, natDigits ip = d0 :: ds := by
    cases h : natDigits ip with
    | nil => exact absurd h (natDigits_ne_nil ip)
    | cons a b => exact ⟨a, b, rfl⟩
  have hd0 : isDigit09 d0 = true := natDigits_all_digit ip d0 (by rw [hnd]; simp)
  have hI : (natDigits ip).takeWhile isDigit09 = natDigits ip :=
    takeWhile_all _ _ (natDigits_all_digit ip)
  cases sgn with
  | false =>
    rw [if_neg Bool.false_ne_true, List.nil_append]
    have hm1 : (match (natDigits ip : List Char) with
        | '-' :: r => r
        | x => natDigits ip) = natDigits ip := by
      rw [hnd]
      split
      · next r heq =>
        injection heq with he1 he2
        rw [he1] at hd0
        exact absurd hd0 (by decide)
      · rfl
    unfold numberShape
    dsimp only
    rw [hm1, hI, isEmpty_false_of_ne_nil (natDigits_ne_nil ip), if_neg Bool.false_ne_true,
      List.drop_length]
    rfl
  | true =>
    rw [if_pos rfl, List.singleton_append]
    have hm1 : (match ('-' :: natDigits ip : List Char) with
        | '-' :: r => r
        | x => '-' :: natDigits ip) = natDigits ip := rfl
    unfold numberShape
    dsimp only
    rw [hm1, hI, isEmpty_false_of_ne_nil (natDigits_ne_nil ip), if_neg Bool.false_ne_true,
      List.drop_length]
    rfl

theorem renderNum_data (q : ℚ) (hd : 10 ^ q.den % q.den = 0) :
    ∃ (sgn : Bool) (ip : Nat) (tail : List Char),
      (∀ c ∈ tail, 45 ≤ c.toNat ∧ c.toNat ≤ 57) ∧
      numberShape ((if sgn then ['-'] else []) ++ natDigits ip ++ tail) = true ∧
      (DataValidation.renderNum q).data =
        (if sgn then ['-'] else []) ++ natDigits ip ++ tail := by
  unfold DataValidation.renderNum
  dsimp only
  rw [if_pos hd]
  set ip := q.num.natAbs * (10 ^ q.den / q.den) / 10 ^ q.den with hip
  set fp := q.num.natAbs * (10 ^ q.den / q.den) % 10 ^ q.den with hfp
  set F := DataValidation.stripZeros (DataValidation.padDigits q.den (natDigits fp)) with hF
  have hfd : ∀ c ∈ F, isDigit09 c = true := by rw [hF]; exact frac_digits _ _
  have htail : ∀ c ∈ ('.' :: F), 45 ≤ c.toNat ∧ c.toNat ≤ 57 := by
    intro c hc
    rcases List.mem_cons.mp hc with rfl | hm
    · decide
    · have := (isDigit09_iff c).mp (hfd c hm)
      omega
  by_cases hFe : F.isEmpty
  · rw [if_pos hFe]
    by_cases hs : q.num < 0
    · refine ⟨true, ip, [], by simp, ?_, ?_⟩
      · rw [List.append_nil]
        exact numberShape_digits true ip
      · rw [if_pos hs, List.append_nil, if_pos rfl]
        exact rfl
    · refine ⟨false, ip, [], by simp, ?_, ?_⟩
      · rw [List.append_nil]
        exact numberShape_digits false ip
      · rw [if_neg hs, List.append_nil, if_neg Bool.false_ne_true, List.nil_append]
        exact rfl
  · rw [if_neg hFe]
    by_cases hs : q.num < 0
    · refine ⟨true, ip, '.' :: F, htail, numberShape_digits_frac true ip F hfd, ?_⟩
      rw [if_pos hs, if_pos rfl]
      show ('-' :: ((natDigits ip ++ ['.']) ++ F) : List Char)
        = '-' :: (natDigits ip ++ ('.' :: F))
      rw [List.append_assoc]
      rfl
    · refine ⟨false, ip, '.' :: F, htail, numberShape_digits_frac false ip F hfd, ?_⟩
      rw [if_neg hs, if_neg Bool.false_ne_true, List.nil_append]
      show ((natDigits ip ++ ['.']) ++ F : List Char) = natDigits ip ++ ('.' :: F)
      rw [List.append_assoc]
      rfl

theorem detect_number_of_canon (sgn : Bool) (ip : Nat) (tail : List Char)
    (htail : ∀ c ∈ tail, 45 ≤ c.toNat ∧ c.toNat ≤ 57)
    (hshape : numberShape ((if sgn then ['-'] else []) ++ natDigits ip ++ tail) = true) :
    DataValidation.detectDataType ⟨(if sgn then ['-'] else []) ++ natDigits ip ++ tail⟩
      = "number" := by
  have hrange := canon_range sgn ip tail htail
  have hws : ∀ c ∈ (if sgn then ['-'] else []) ++ natDigits ip ++ tail,
      jsWhitespace c = false :=
    fun c hc => ws_false_of_digitish (hrange c hc).1 (hrange c hc).2
  have htrim : jsTrimList ((if sgn then ['-'] else []) ++ natDigits ip ++ tail)
      = (if sgn then ['-'] else []) ++ natDigits ip ++ tail := trim_eq_self_of_no_ws _ hws
  have hne : (if sgn then ['-'] else []) ++ natDigits ip ++ tail ≠ [] := by
    intro h
    rcases List.append_eq_nil.mp h with ⟨h1, h2⟩
    rcases List.append_eq_nil.mp h1 with ⟨h3, h4⟩
    exact natDigits_ne_nil ip h4
  have hnan := parseFloat_ne_nan_canon sgn ip tail hws
  have hvn : DataValidation.isValidNumber
      ⟨(if sgn then ['-'] else []) ++ natDigits ip ++ tail⟩ = true := by
    unfold DataValidation.isValidNumber
    dsimp only
    rw [htrim, isEmpty_false_of_ne_nil hne, hshape, decide_eq_false hnan]
    rfl
  unfold DataValidation.detectDataType
  dsimp only
  rw [htrim, isEmpty_false_of_ne_nil hne, if_neg Bool.false_ne_true, hvn, if_pos rfl]

theorem detect_render (q : ℚ) (hd : 10 ^ q.den % q.den = 0) :
    DataValidation.detectDataType (DataValidation.renderNum q) = "number" := by
  obtain ⟨sgn, ip, tail, htail, hshape, hdata⟩ := renderNum_data q hd
  have h1 : DataValidation.renderNum q
      = ⟨(if sgn then ['-'] else []) ++ natDigits ip ++ tail⟩ := by
    rw [← hdata, string_eta]
  rw [h1]
  exact detect_number_of_canon sgn ip tail htail hshape

/-- **C6.**  Amended claim.  `detectDataType` is total — it always returns one of
`"empty"`, `"number"`, `"date"`, `"text"` — and type detection is idempotent
under the reformatting performed by `validateValue` with a `null` expected
type, PROVIDED (i) the engine's locale date formatting `df` yields a string
that still detects as a date whenever `new Date` accepted the input, and
(ii) `parseFloat` of the trimmed input does not overflow to `±Infinity`
(the unamended claim is refuted by `C6_counterexample`: `"1e999"` detects as
`"number"` but reformats to `"Infinity"`, which detects as `"text"`). -/
theorem C6_detect_total_and_idem (dv : String → Bool) (df : String → String) (S : String)
    (hdf : ∀ s, dv s = true → DataValidation.detectDataType (df s) = "date")
    (hinf : parseFloatJs ⟨jsTrimList S.data⟩ ≠ JsNum.inf)
    (hninf : parseFloatJs ⟨jsTrimList S.data⟩ ≠ JsNum.negInf) :
    (DataValidation.detectDataType S = "empty" ∨
      DataValidation.detectDataType S = "number" ∨
      DataValidation.detectDataType S = "date" ∨
      DataValidation.detectDataType S = "text") ∧
    DataValidation.detectDataType
        ((DataValidation.validateValue dv df S none).formattedValue) =
      DataValidation.detectDataType S := by
  by_cases he : (jsTrimList S.data).isEmpty
  · have hdet : DataValidation.detectDataType S = "empty" := by
      unfold DataValidation.detectDataType
      rw [if_pos he]
    have hfmt : (DataValidation.validateValue dv df S none).formattedValue = "" := by
      unfold DataValidation.validateValue
      dsimp only
      rw [if_pos he]
    refine ⟨Or.inl hdet, ?_⟩
    rw [hfmt, hdet]
    decide
  · have he' : ¬((jsTrimList S.data).isEmpty = true) := he
    by_cases hn : DataValidation.isValidNumber ⟨jsTrimList S.data⟩
    · have hdet : DataValidation.detectDataType S = "number" := by
        unfold DataValidation.detectDataType
        rw [if_neg he']
        dsimp only
        rw [hn, if_pos rfl]
      have hnan : parseFloatJs ⟨jsTrimList S.data⟩ ≠ JsNum.nan := by
        have hn2 := hn
        unfold DataValidation.isValidNumber at hn2
        dsimp only at hn2
        rw [jsTrimList_idem] at hn2
        intro hcontra
        rw [hcontra] at hn2
        simp at hn2
      obtain ⟨qv, hq⟩ : ∃ qv, parseFloatJs ⟨jsTrimList S.data⟩ = JsNum.num qv := by
        cases hp : parseFloatJs ⟨jsTrimList S.data⟩ with
        | nan => exact absurd hp hnan
        | inf => exact absurd hp hinf
        | negInf => exact absurd hp hninf
        | num qv => exact ⟨qv, rfl⟩
      have hfmt : (DataValidation.validateValue dv df S none).formattedValue
          = DataValidation.renderNum qv := by
        unfold DataValidation.validateValue
        dsimp only
        simp only [Option.getD_none]
        rw [if_neg he', hdet, if_pos (rfl : ("number" : String) = "number"), hn,
          if_neg (by decide : ¬((!true) = true))]
        rw [hq]
        rfl
      have hsmooth : 10 ^ qv.den % qv.den = 0 := by
        obtain ⟨j, hj⟩ := parse_den_dvd hq
        exact den_pow_mod hj
      refine ⟨Or.inr (Or.inl hdet), ?_⟩
      rw [hfmt, hdet, detect_render qv hsmooth]
    · have hn' : DataValidation.isValidNumber ⟨jsTrimList S.data⟩ = false := by
        rw [Bool.not_eq_true] at hn
        exact hn
      by_cases hdt : DataValidation.looksLikeDate ⟨jsTrimList S.data⟩
      · have hdet : DataValidation.detectDataType S = "date" := by
          unfold DataValidation.detectDataType
          rw [if_neg he']
          dsimp only
          rw [hn', if_neg Bool.false_ne_true, hdt, if_pos rfl]
        by_cases hdv : dv ⟨jsTrimList S.data⟩
        · have hfmt : (DataValidation.validateValue dv df S none).formattedValue
              = df ⟨jsTrimList S.data⟩ := by
            unfold DataValidation.validateValue
            dsimp only
            simp only [Option.getD_none]
            rw [if_neg he', hdet, if_neg (by decide : ¬(("date" : String) = "number")),
              if_pos (rfl : ("date" : String) = "date")]
            have hvd : DataValidation.isValidDate dv ⟨jsTrimList S.data⟩ = true := by
              unfold DataValidation.isValidDate
              rw [hdt, hdv]
              rfl
            rw [hvd, if_neg (by decide : ¬((!true) = true))]
          refine ⟨Or.inr (Or.inr (Or.inl hdet)), ?_⟩
          rw [hfmt, hdet]
          exact hdf _ hdv
        · have hdv' : dv ⟨jsTrimList S.data⟩ = false := by
            rw [Bool.not_eq_true] at hdv
            exact hdv
          have hfmt : (DataValidation.validateValue dv df S none).formattedValue = S := by
            unfold DataValidation.validateValue
            dsimp only
            simp only [Option.getD_none]
            rw [if_neg he', hdet, if_neg (by decide : ¬(("date" : String) = "number")),
              if_pos (rfl : ("date" : String) = "date")]
            have hvd : DataValidation.isValidDate dv ⟨jsTrimList S.data⟩ = false := by
              unfold DataValidation.isValidDate
              rw [hdv']
              simp
            rw [hvd, if_pos (by decide : (!false) = true)]
          exact ⟨Or.inr (Or.inr (Or.inl hdet)), by rw [hfmt]⟩
      · have hdt' : DataValidation.looksLikeDate ⟨jsTrimList S.data⟩ = false := by
          rw [Bool.not_eq_true] at hdt
          exact hdt
        have hdet : DataValidation.detectDataType S = "text" := by
          unfold DataValidation.detectDataType
          rw [if_neg he']
          dsimp only
          rw [hn', if_neg Bool.false_ne_true, hdt', if_neg Bool.false_ne_true]
        have hfmt : (DataValidation.validateValue dv df S none).formattedValue
            = ⟨jsTrimList S.data⟩ := by
          unfold DataValidation.validateValue
          dsimp only
          simp only [Option.getD_none]
          rw [if_neg he', hdet, if_neg (by decide : ¬(("text" : String) = "number")),
            if_neg (by decide : ¬(("text" : String) = "date")),
            if_pos (rfl : ("text" : String) = "text")]
          by_cases hl : (jsTrimList S.data).length > 1000
          · rw [if_pos hl]
          · rw [if_neg hl]
        refine ⟨Or.inr (Or.inr (Or.inr hdet)), ?_⟩
        rw [hfmt, detect_of_trimmed]

/-- **C6, counterexample.**  Idempotence fails without the overflow proviso:
`"1e999"` is detected as a number, but `validateValue` reformats it through
`parseFloat` (which overflows to `Infinity`) and `Number.prototype.toString`,
and the reformatted value `"Infinity"` is detected as text. -/
theorem C6_counterexample :
    DataValidation.detectDataType "1e999" = "number" ∧
    (DataValidation.validateValue dv0 df0 "1e999" none).formattedValue = "Infinity" ∧
    DataValidation.detectDataType
      ((DataValidation.validateValue dv0 df0 "1e999" none).formattedValue) = "text" :=
  ⟨by decide, by decide, by decide⟩

/-- Witness for `C6_detect_total_and_idem` at `dv0`, `df0`, `"3.5"`. -/
theorem C6_witness :
    parseFloatJs ⟨jsTrimList ("3.5" : String).data⟩ ≠ JsNum.inf ∧
    ((DataValidation.detectDataType "3.5" = "empty" ∨
        DataValidation.detectDataType "3.5" = "number" ∨
        DataValidation.detectDataType "3.5" = "date" ∨
        DataValidation.detectDataType "3.5" = "text") ∧
      DataValidation.detectDataType
          ((DataValidation.validateValue dv0 df0 "3.5" none).formattedValue) =
        DataValidation.detectDataType "3.5") :=
  ⟨by decide, C6_detect_total_and_idem dv0 df0 "3.5"
    (fun s hs => Bool.noConfusion hs) (by decide) (by decide)⟩
